import Mathlib

/-!
Verification of the qifparse parsing engine (qifparse/parser.py).

The Python source is shallowly embedded: every string-manipulating
primitive of the source (slicing, `str.split`, `str.replace`, `str.strip`,
`int()`, `re.split(r'\W+', ...)`, `decimal.Decimal(...)` validity,
`datetime(...)` validity) is modelled as an executable Lean function over
`List Char` / `String`, and each parser classmethod becomes a Lean
function returning `Except` mirroring the exceptions the Python code can
raise.  Python runtime errors that escape the parser (IndexError from
negative indexing or `splits[-1]` on an empty list, and
`decimal.InvalidOperation`) are modelled as dedicated error constructors,
distinct from the parser's own `QifParser...` exception classes.

Separator arguments of `parseQifNumber` are modelled as `Char` (decimal
separator) and `Option Char` (thousands separator, `none` standing for
the empty string), which covers every value the module ever passes:
the defaults `'.'` and `''` and the four candidate pairs of
`guessNumberFormat`.
-/

set_option maxRecDepth 20000

deriving instance DecidableEq for Except

namespace Qifparse

/-- The apostrophe character (code point 39). -/
def apos : Char := Char.ofNat 39

/-- ASCII whitespace as recognized by Python `str.strip()` and the regex class `\s`. -/
def isWs (c : Char) : Bool :=
  c = ' ' || c = '\t' || c = '\n' || c = '\r' || c = Char.ofNat 11 || c = Char.ofNat 12

/-- Strip whitespace from both ends of a character list (Python `str.strip()`). -/
def stripWs (cs : List Char) : List Char :=
  ((cs.dropWhile isWs).reverse.dropWhile isWs).reverse

/-- Python `str.strip()` on strings. -/
def pyStrip (s : String) : String := ⟨stripWs s.data⟩

/-- A word character for the ASCII regex class `\w`: letter, digit or underscore. -/
def isWord (c : Char) : Bool := c.isAlphanum || c = '_'

/-- Worker for `re.split(r'\W+', s)`.  `inWord = true` means we are building the
current segment `cur` (kept reversed); `inWord = false` means we are inside a
run of separator characters that has already terminated a segment. -/
def splitWAux (inWord : Bool) (cur : List Char) : List Char → List String
  | [] => if inWord then [⟨cur.reverse⟩] else [""]
  | c :: cs =>
    if isWord c then
      if inWord then splitWAux true (c :: cur) cs else splitWAux true [c] cs
    else
      if inWord then ⟨cur.reverse⟩ :: splitWAux false [] cs else splitWAux false [] cs

/-- `re.split(r'\W+', s)`: split on maximal runs of non-word characters; a
leading or trailing run contributes an empty component, interior runs do not. -/
def splitW (s : String) : List String := splitWAux true [] s.data

/-- Worker for Python `str.split(sep)` with a one-character separator,
keeping empty components. -/
def splitCharAux (c : Char) (cur : List Char) : List Char → List String
  | [] => [⟨cur.reverse⟩]
  | x :: xs => if x = c then ⟨cur.reverse⟩ :: splitCharAux c [] xs else splitCharAux c (x :: cur) xs

/-- Python `str.split(sep)` for a one-character separator. -/
def splitChar (c : Char) (s : String) : List String := splitCharAux c [] s.data

/-- Python `str.replace(old, new)` where `old` is a single character:
every occurrence is replaced. -/
def replaceChar (c : Char) (rep : String) (s : String) : String :=
  ⟨s.data.foldr (fun x acc => if x = c then rep.data ++ acc else x :: acc) []⟩

/-- List prefix test (Python `str.startswith`). -/
def listPre : List Char → List Char → Bool
  | [], _ => true
  | _ :: _, [] => false
  | p :: ps, q :: qs => p = q && listPre ps qs

/-- Python `str.startswith`. -/
def strPre (p s : String) : Bool := listPre p.data s.data

/-- Value of a list of decimal digit characters. -/
def digitsToNat (l : List Char) : Nat := l.foldl (fun a c => a * 10 + (c.toNat - 48)) 0

/-- Python 2 `int()` applied to a run of word characters (as produced by the
`\W+` split): succeeds exactly on a non-empty all-digit run.  Letters and
underscores raise ValueError, as does the empty string. -/
def pyIntDigits (l : List Char) : Option Nat :=
  if l ≠ [] && l.all (·.isDigit) then some (digitsToNat l) else none

/-- Python 2 `int()` on an arbitrary string: surrounding whitespace is
allowed, then an optional single sign, then a non-empty run of digits. -/
def pyInt (s : String) : Option Int :=
  match stripWs s.data with
  | [] => none
  | c :: rest =>
    if c = '-' then (pyIntDigits rest).map (fun n => -(n : Int))
    else if c = '+' then (pyIntDigits rest).map (fun n => (n : Int))
    else (pyIntDigits (c :: rest)).map (fun n => (n : Int))

/-! ## Dates -/

/-- The three candidate date component orders of `guessDateFormat`. -/
inductive DateFmt
  | dmy
  | mdy
  | ymd
deriving DecidableEq, Repr

/-- How `parseQifDateTime` can fail: `invalid` is the `QifParserInvalidDate`
exception (a caught ValueError); `crash` is the uncaught IndexError raised
by the negative indexing `qdate[-2]` / `qdate[-3]` on too-short inputs;
`overflow` is the uncaught OverflowError that `datetime(...)` raises when
an argument does not fit in a C int (value at least 2^31), which the
`except ValueError` handler does not catch. -/
inductive DateErr
  | invalid
  | crash
  | overflow
deriving DecidableEq, Repr

/-- A `datetime` value as far as the parser is concerned (no time of day). -/
structure PyDate where
  year : Nat
  month : Nat
  day : Nat
deriving DecidableEq, Repr

/-- Gregorian leap year, as used by `datetime`. -/
def isLeap (y : Nat) : Bool := y % 4 = 0 && (decide (y % 100 ≠ 0) || y % 400 = 0)

/-- Days in a month, as used by `datetime`. -/
def daysInMonth (y m : Nat) : Nat :=
  if m = 2 then (if isLeap y then 29 else 28)
  else if m = 4 || m = 6 || m = 9 || m = 11 then 30
  else 31

/-- Whether `datetime(y, m, d)` succeeds: year in `[1, 9999]`, month in
`[1, 12]`, day in range for the month. -/
def validDate (y m d : Nat) : Bool :=
  decide (1 ≤ y) && decide (y ≤ 9999) && decide (1 ≤ m) && decide (m ≤ 12) &&
    decide (1 ≤ d) && decide (d ≤ daysInMonth y m)

/-- The y2k apostrophe normalization at the top of `parseQifDateTime`.
Python `qdate[-2]` is the second element of the reversed character list and
`qdate[-3]` the third; an index out of range raises IndexError, modelled as
`none`.  `str.replace` rewrites every apostrophe. -/
def normQifDate (s : String) : Option String :=
  match s.data.reverse with
  | _ :: c2 :: rest =>
    if c2 = apos then some (replaceChar apos "/200" s)
    else
      match rest with
      | c3 :: _ =>
        if c3 = apos then some (replaceChar apos "/20" s)
        else some (replaceChar apos "/" s)
      | [] => none
  | _ => none

/-- `datetime(int(ys), int(ms), int(ds))` under the try/except of
`parseQifDateTime`.  A ValueError from `int(...)` or from the range checks
of `datetime` is caught and becomes `QifParserInvalidDate`; but before the
range checks, each argument of `datetime` is converted to a C int, and a
value of at least 2^31 raises an uncaught OverflowError instead. -/
def mkPyDate (ys ms ds : String) : Except DateErr PyDate :=
  match pyIntDigits ys.data, pyIntDigits ms.data, pyIntDigits ds.data with
  | some y, some m, some d =>
    if y < 2147483648 && m < 2147483648 && d < 2147483648 then
      (if validDate y m d then .ok ⟨y, m, d⟩ else .error .invalid)
    else .error .overflow
  | _, _, _ => .error .invalid

/-- The body of `parseQifDateTime` after normalization and stripping:
split into exactly three components, then build the date in the order
given by `date_format`.  A wrong component count is the caught ValueError
of the unpacking, hence `QifParserInvalidDate`. -/
def parseDateCore (ns : String) (fmt : DateFmt) : Except DateErr PyDate :=
  match splitW ns with
  | [n1, n2, n3] =>
    match fmt with
    | .dmy => mkPyDate n3 n2 n1
    | .mdy => mkPyDate n3 n1 n2
    | .ymd => mkPyDate n1 n2 n3
  | _ => .error .invalid

/-- `QifParser.parseQifDateTime`. -/
def parseQifDateTime (s : String) (fmt : DateFmt) : Except DateErr PyDate :=
  match normQifDate s with
  | none => .error .crash
  | some ns => parseDateCore (pyStrip ns) fmt

/-- Outcome of `guessDateFormat`: an uncaught IndexError or OverflowError
propagating from a sample, the zero-survivor error, or the many-survivor
ambiguity error. -/
inductive GDateErr
  | crash
  | overflow
  | inconsistent
  | ambiguous
deriving DecidableEq, Repr

/-- Initial candidate list of `guessDateFormat`. -/
def dateCandidates : List DateFmt := [.dmy, .mdy, .ymd]

/-- One pass of the inner loop of `guessDateFormat` over one sample: the
loop iterates over a copy of the candidate list, removing a candidate when
`parseQifDateTime` raises `QifParserInvalidDate`; an IndexError or an
OverflowError is not caught and aborts the whole guess. -/
def dateFilterOnce : List DateFmt → String → Except GDateErr (List DateFmt)
  | [], _ => .ok []
  | f :: fs, s =>
    match parseQifDateTime s f with
    | .ok _ => (dateFilterOnce fs s).map (f :: ·)
    | .error .invalid => dateFilterOnce fs s
    | .error .crash => .error .crash
    | .error .overflow => .error .overflow

/-- `QifParser.guessDateFormat`. -/
def guessDateFormat (samples : List String) : Except GDateErr DateFmt :=
  match samples.foldlM dateFilterOnce dateCandidates with
  | .error e => .error e
  | .ok [] => .error .inconsistent
  | .ok [f] => .ok f
  | .ok (_ :: _ :: _) => .error .ambiguous

/-- Whether an `Except` computation succeeded. -/
def isOkB {ε α : Type} : Except ε α → Bool
  | .ok _ => true
  | .error _ => false

/-- Whether a date parse completed without an uncaught Python error: the
result is a date or the caught `QifParserInvalidDate`, not an IndexError
or an OverflowError. -/
def isDateSafe : Except DateErr PyDate → Bool
  | .error .crash => false
  | .error .overflow => false
  | _ => true

/-- The surviving date orders, stated the way the specification describes
them: the candidate set filtered against every sample, elimination being
permanent across the whole sample set. -/
def survDate (samples : List String) : List DateFmt :=
  samples.foldl (fun fs s => fs.filter (fun f => isOkB (parseQifDateTime s f))) dateCandidates

/-! ## Numbers -/

/-- How `parseQifNumber` can fail: `collision` is the `QifParserException`
raised when the two separators coincide, `invalid` is
`QifParserInvalidNumber`, and `invalidOp` is `decimal.InvalidOperation`
raised by the final `Decimal(...)` constructor (uncaught inside
`parseQifNumber` itself). -/
inductive NumErr
  | collision
  | invalid
  | invalidOp
deriving DecidableEq, Repr

/-- Exponent digits at the end of a decimal numeric string: a non-empty
all-digit run, with nothing after it. -/
def expDigits (l : List Char) : Bool := decide (l ≠ []) && l.all (·.isDigit)

/-- The optional `E[+-]?digits` tail of the `decimal` module parsing regex,
followed by end of input. -/
def decTail (l : List Char) : Bool :=
  match l with
  | [] => true
  | e :: rest =>
    (e = 'e' || e = 'E') &&
      (match rest with
       | c :: rest2 => if c = '+' || c = '-' then expDigits rest2 else expDigits rest
       | [] => false)

/-- The plain-number branch of the `decimal` module parsing regex:
`digits* ('.' digits*)?` with at least one digit overall, then an optional
exponent. -/
def numBody (l : List Char) : Bool :=
  let d1 := l.takeWhile (·.isDigit)
  let r1 := l.dropWhile (·.isDigit)
  match r1 with
  | '.' :: r2 =>
    let d2 := r2.takeWhile (·.isDigit)
    let r3 := r2.dropWhile (·.isDigit)
    (decide (d1 ≠ []) || decide (d2 ≠ [])) && decTail r3
  | _ => decide (d1 ≠ []) && decTail r1

/-- The infinity branch of the `decimal` parsing regex (case-insensitive). -/
def infBody (l : List Char) : Bool :=
  l.map Char.toLower == "inf".data || l.map Char.toLower == "infinity".data

/-- The NaN branch of the `decimal` parsing regex (case-insensitive,
optional signalling `s`, optional digit diagnostics). -/
def nanBody (l : List Char) : Bool :=
  let l2 := match l with
    | c :: rest => if c.toLower = 's' then rest else l
    | [] => l
  match l2 with
  | a :: b :: c :: rest =>
    a.toLower = 'n' && b.toLower = 'a' && c.toLower = 'n' && rest.all (·.isDigit)
  | _ => false

/-- Whether `decimal.Decimal(s)` accepts the string `s`: surrounding
whitespace, an optional sign, then a number, an infinity or a NaN. -/
def pyDecValid (s : String) : Bool :=
  let cs := stripWs s.data
  let cs2 := match cs with
    | c :: rest => if c = '+' || c = '-' then rest else cs
    | [] => cs
  numBody cs2 || infBody cs2 || nanBody cs2

/-- The final `Decimal("%s.%s" % (int_p, frac_p))` of `parseQifNumber`: the
value is the literal numeric string handed to the constructor; an invalid
literal raises `decimal.InvalidOperation`. -/
def mkDec (ip fp : String) : Except NumErr String :=
  let s := ip ++ "." ++ fp
  if pyDecValid s then .ok s else .error .invalidOp

/-- The decimal-separator stage of `parseQifNumber`: when the separator
occurs in the string, `qnumber.split(decimal_sep)` must produce exactly the
integer and fractional parts (more than one occurrence raises
`QifParserInvalidNumber`); otherwise the fractional part defaults to 0. -/
def pyDecSplit (q : String) (d : Char) : Except NumErr (String × String) :=
  if q.data.contains d then
    match splitChar d q with
    | [ip, fp] => .ok (ip, fp)
    | _ => .error .invalid
  else .ok (q, "0")

/-- The thousands-block check of `parseQifNumber`: the leftmost block has at
most 3 characters and every other block exactly 3. -/
def thouBlocksOk (blocks : List String) : Bool :=
  match blocks with
  | [] => true
  | b :: bs => decide (b.length ≤ 3) && bs.all (fun x => x.length == 3)

/-- `int_p.replace(thousands_sep, '')`. -/
def stripThou (tc : Char) (ip : String) : String := ⟨ip.data.filter (fun x => x != tc)⟩

/-- `QifParser.parseQifNumber`.  The returned `String` is the exact numeric
literal passed to `Decimal(...)`. -/
def parseQifNumber (q : String) (d : Char) (t : Option Char) : Except NumErr String :=
  if t = some d then .error .collision
  else
    match pyDecSplit q d with
    | .error e => .error e
    | .ok (ip, fp) =>
      match t with
      | some tc =>
        if thouBlocksOk (splitChar tc ip) then mkDec (stripThou tc ip) fp
        else .error .invalid
      | none =>
        match pyInt ip with
        | some n => mkDec (toString n) fp
        | none => .error .invalid

/-- Outcome of `guessNumberFormat`: a propagated `QifParserException`
(separator collision, never triggered by the actual candidate list), the
zero-survivor error, or the unresolvable-ambiguity error. -/
inductive GNumErr
  | collision
  | inconsistent
  | ambiguous
deriving DecidableEq, Repr

/-- The four candidate (decimal, thousands) separator pairs of
`guessNumberFormat`, in source order. -/
def numCandidates : List (Char × Option Char) :=
  [('.', none), ('.', some ','), (',', none), (',', some '.')]

/-- One pass of the inner loop of `guessNumberFormat` over one sample: a
candidate is removed when `parseQifNumber` raises `QifParserInvalidNumber`
or `decimal.InvalidOperation`; a `QifParserException` is not caught. -/
def numFilterOnce : List (Char × Option Char) → String → Except GNumErr (List (Char × Option Char))
  | [], _ => .ok []
  | p :: ps, s =>
    match parseQifNumber s p.1 p.2 with
    | .ok _ => (numFilterOnce ps s).map (p :: ·)
    | .error .invalid => numFilterOnce ps s
    | .error .invalidOp => numFilterOnce ps s
    | .error .collision => .error .collision

/-- `QifParser.guessNumberFormat`.  With more than one survivor the Python
code builds `set` objects of the decimal separators and of the non-empty
thousands separators; a singleton set is modelled by `List.dedup` having
exactly one element. -/
def guessNumberFormat (samples : List String) : Except GNumErr (Char × Option Char) :=
  match samples.foldlM numFilterOnce numCandidates with
  | .error e => .error e
  | .ok [] => .error .inconsistent
  | .ok [p] => .ok p
  | .ok (p :: q :: rest) =>
    let survivors := p :: q :: rest
    match (survivors.map Prod.fst).dedup with
    | [dv] =>
      match (survivors.filterMap Prod.snd).dedup with
      | [tv] => .ok (dv, some tv)
      | _ => .error .ambiguous
    | _ => .error .ambiguous

/-- The surviving separator pairs, stated the way the specification
describes them: the candidate set filtered against every sample,
elimination being permanent across the whole sample set. -/
def survNum (samples : List String) : List (Char × Option Char) :=
  samples.foldl (fun ps s => ps.filter (fun p => isOkB (parseQifNumber s p.1 p.2))) numCandidates

/-! ## Record types

The record classes live in qifparse/qif.py, which is not part of the
sources at hand; their field inventory is taken from the assignments the
decoders in parser.py perform, with every field initially unset, as the
specification's data model describes (optional fields, empty split and
address sequences). -/

/-- Modelled from the spec: an amount split record (fields as assigned by
the `S`/`E`/`$`/address branches of the decoders; all optional, address
lines and splits accumulate in line order). -/
structure AmountSplit where
  category : Option String := none
  to_account : Option String := none
  amount : Option String := none
  memo : Option String := none
  address : List String := []
deriving DecidableEq, Repr

/-- Modelled from the spec: a (non-investment) transaction record. -/
structure Transaction where
  date : Option PyDate := none
  num : Option String := none
  amount : Option String := none
  cleared : Option String := none
  payee : Option String := none
  memo : Option String := none
  first_payment_date : Option String := none
  years_of_loan : Option String := none
  num_payments_done : Option String := none
  periods_per_year : Option String := none
  interests_rate : Option String := none
  current_loan_balance : Option String := none
  original_loan_amount : Option String := none
  address : List String := []
  to_account : Option String := none
  category : Option String := none
  splits : List AmountSplit := []
deriving DecidableEq, Repr

/-- Modelled from the spec: a memorized transaction record. -/
structure MemorizedTransaction where
  amount : Option String := none
  cleared : Option String := none
  payee : Option String := none
  memo : Option String := none
  mtype : Option String := none
  address : List String := []
  to_account : Option String := none
  category : Option String := none
  splits : List AmountSplit := []
deriving DecidableEq, Repr

/-- Modelled from the spec: an investment transaction record.  Note that
the decoder in parser.py never assigns a category field to investments. -/
structure Investment where
  date : Option PyDate := none
  amount : Option String := none
  action : Option String := none
  security : Option String := none
  price : Option String := none
  quantity : Option String := none
  cleared : Option String := none
  memo : Option String := none
  first_line : Option String := none
  to_account : Option String := none
  amount_transfer : Option String := none
  commission : Option String := none
deriving DecidableEq, Repr

/-- Modelled from the spec: an account record. -/
structure Account where
  name : Option String := none
  description : Option String := none
  account_type : Option String := none
  credit_limit : Option String := none
  balance_date : Option PyDate := none
  balance_amount : Option String := none
deriving DecidableEq, Repr

/-- Modelled from the spec: a category record. -/
structure Category where
  name : Option String := none
  description : Option String := none
  budget_amount : Option String := none
  tax_schedule_info : Option String := none
  expense_category : Option Bool := none
  income_category : Option Bool := none
  tax_related : Option Bool := none
deriving DecidableEq, Repr

/-- Modelled from the spec: a class record. -/
structure QifClass where
  name : Option String := none
  description : Option String := none
deriving DecidableEq, Repr

/-! ## Record decoders -/

/-- A one-character string holding the apostrophe. -/
def sq : String := ⟨[apos]⟩

/-- Python `s[:-1]`: the string without its final character. -/
def dropLastStr (s : String) : String := ⟨s.data.dropLast⟩

/-- The fresh split opened by an `S` line, its category-or-transfer field
filled from the line value `cat`: `split.to_account = cat[1:-1]` when the
value starts with an opening bracket, `split.category = cat` otherwise. -/
def mkSplitFromCat (v : String) : AmountSplit :=
  if strPre "[" v then { to_account := some ⟨(v.data.drop 1).dropLast⟩ }
  else { category := some v }

/-- How decoding one chunk can fail.  `invalidDate`, `numInvalid` and
`numCollision` are the parser's own exception classes
(`QifParserInvalidDate`, `QifParserInvalidNumber`, `QifParserException`);
`dateIndexErr`, `dateOverflow`, `invalidOp` and `indexError` are Python
runtime errors (IndexError inside date normalization, OverflowError from
`datetime` arguments beyond the C int range, `decimal.InvalidOperation`,
and the IndexError of `splits[-1]` on an empty split list) that the
decoders do not catch. -/
inductive DecErr
  | invalidDate
  | dateIndexErr
  | dateOverflow
  | numInvalid
  | numCollision
  | invalidOp
  | indexError
deriving DecidableEq, Repr

/-- Lift a date parsing failure into a decoding failure. -/
def dErr : DateErr → DecErr
  | .invalid => .invalidDate
  | .crash => .dateIndexErr
  | .overflow => .dateOverflow

/-- Lift a number parsing failure into a decoding failure. -/
def nErr : NumErr → DecErr
  | .collision => .numCollision
  | .invalid => .numInvalid
  | .invalidOp => .invalidOp

/-- The tag dispatch of `QifParser.parseTransaction` for a non-empty line
with first character `c` and remaining characters `rest`.  The duplicated
dead `A` branch of the source (unreachable after the first `A` branch) is
omitted; unrecognized tags are skipped with a log message. -/
def stepTransCore (fmt : DateFmt) (d : Char) (t : Option Char) (cur : Transaction)
    (c : Char) (rest : List Char) : Except DecErr Transaction :=
    if c = '\n' || strPre "!Type" ⟨c :: rest⟩ then .ok cur
    else if c = 'D' then
      (parseQifDateTime ⟨rest⟩ fmt).mapError dErr |>.map (fun dt => { cur with date := some dt })
    else if c = 'N' then .ok { cur with num := some ⟨rest⟩ }
    else if c = 'T' then
      (parseQifNumber ⟨rest⟩ d t).mapError nErr |>.map (fun v => { cur with amount := some v })
    else if c = 'C' then .ok { cur with cleared := some ⟨rest⟩ }
    else if c = 'P' then .ok { cur with payee := some ⟨rest⟩ }
    else if c = 'M' then .ok { cur with memo := some ⟨rest⟩ }
    else if c = '1' then .ok { cur with first_payment_date := some ⟨rest⟩ }
    else if c = '2' then .ok { cur with years_of_loan := some ⟨rest⟩ }
    else if c = '3' then .ok { cur with num_payments_done := some ⟨rest⟩ }
    else if c = '4' then .ok { cur with periods_per_year := some ⟨rest⟩ }
    else if c = '5' then .ok { cur with interests_rate := some ⟨rest⟩ }
    else if c = '6' then .ok { cur with current_loan_balance := some ⟨rest⟩ }
    else if c = '7' then .ok { cur with original_loan_amount := some ⟨rest⟩ }
    else if c = 'A' then .ok { cur with address := cur.address ++ [⟨rest⟩] }
    else if c = 'L' then
      if strPre "[" ⟨rest⟩ then .ok { cur with to_account := some ⟨(rest.drop 1).dropLast⟩ }
      else .ok { cur with category := some ⟨rest⟩ }
    else if c = 'S' then
      .ok { cur with splits := cur.splits ++ [mkSplitFromCat ⟨rest⟩] }
    else if c = 'E' then
      match cur.splits.getLast? with
      | none => .error .indexError
      | some sp =>
        .ok { cur with splits := cur.splits.dropLast ++ [{ sp with memo := some ⟨rest.dropLast⟩ }] }
    else if c = '$' then
      match cur.splits.getLast? with
      | none => .error .indexError
      | some sp =>
        (parseQifNumber ⟨rest.dropLast⟩ d t).mapError nErr |>.map
          (fun v => { cur with splits := cur.splits.dropLast ++ [{ sp with amount := some v }] })
    else .ok cur

/-- One line of `QifParser.parseTransaction`: empty lines are skipped. -/
def stepTrans (fmt : DateFmt) (d : Char) (t : Option Char) (cur : Transaction)
    (line : String) : Except DecErr Transaction :=
  match line.data with
  | [] => .ok cur
  | c :: rest => stepTransCore fmt d t cur c rest

/-- `QifParser.parseTransaction` on the list of lines of a chunk. -/
def parseTransactionLines (fmt : DateFmt) (d : Char) (t : Option Char)
    (lines : List String) : Except DecErr Transaction :=
  lines.foldlM (stepTrans fmt d t) {}

/-- `QifParser.parseTransaction`. -/
def parseTransaction (fmt : DateFmt) (d : Char) (t : Option Char)
    (chunk : String) : Except DecErr Transaction :=
  parseTransactionLines fmt d t (splitChar '\n' chunk)

/-- The tag dispatch of `QifParser.parseMemorizedTransaction` for a
non-empty line.  The duplicated dead `A` branch of the source is omitted. -/
def stepMemCore (d : Char) (t : Option Char) (cur : MemorizedTransaction)
    (c : Char) (rest : List Char) : Except DecErr MemorizedTransaction :=
    if c = '\n' || strPre "!Type:Memorized" ⟨c :: rest⟩ then .ok cur
    else if c = 'T' then
      (parseQifNumber ⟨rest⟩ d t).mapError nErr |>.map (fun v => { cur with amount := some v })
    else if c = 'C' then .ok { cur with cleared := some ⟨rest⟩ }
    else if c = 'P' then .ok { cur with payee := some ⟨rest⟩ }
    else if c = 'M' then .ok { cur with memo := some ⟨rest⟩ }
    else if c = 'K' then .ok { cur with mtype := some ⟨rest⟩ }
    else if c = 'A' then .ok { cur with address := cur.address ++ [⟨rest⟩] }
    else if c = 'L' then
      if strPre "[" ⟨rest⟩ then .ok { cur with to_account := some ⟨(rest.drop 1).dropLast⟩ }
      else .ok { cur with category := some ⟨rest⟩ }
    else if c = 'S' then
      .ok { cur with splits := cur.splits ++ [mkSplitFromCat ⟨rest⟩] }
    else if c = 'E' then
      match cur.splits.getLast? with
      | none => .error .indexError
      | some sp =>
        .ok { cur with splits := cur.splits.dropLast ++ [{ sp with memo := some ⟨rest.dropLast⟩ }] }
    else if c = '$' then
      match cur.splits.getLast? with
      | none => .error .indexError
      | some sp =>
        (parseQifNumber ⟨rest.dropLast⟩ d t).mapError nErr |>.map
          (fun v => { cur with splits := cur.splits.dropLast ++ [{ sp with amount := some v }] })
    else .ok cur

/-- One line of `QifParser.parseMemorizedTransaction`: empty lines are
skipped. -/
def stepMem (d : Char) (t : Option Char) (cur : MemorizedTransaction)
    (line : String) : Except DecErr MemorizedTransaction :=
  match line.data with
  | [] => .ok cur
  | c :: rest => stepMemCore d t cur c rest

/-- `QifParser.parseMemorizedTransaction` on the list of lines of a chunk. -/
def parseMemorizedLines (d : Char) (t : Option Char)
    (lines : List String) : Except DecErr MemorizedTransaction :=
  lines.foldlM (stepMem d t) {}

/-- One line of `QifParser.parseInvestment`.  Its `L` branch performs no
bracket test: it always assigns `line[2:-1]` to the transfer account. -/
def stepInv (fmt : DateFmt) (d : Char) (t : Option Char) (cur : Investment)
    (line : String) : Except DecErr Investment :=
  match line.data with
  | [] => .ok cur
  | c :: rest =>
    if c = '\n' || strPre "!Type" line then .ok cur
    else if c = 'D' then
      (parseQifDateTime ⟨rest⟩ fmt).mapError dErr |>.map (fun dt => { cur with date := some dt })
    else if c = 'T' then
      (parseQifNumber ⟨rest⟩ d t).mapError nErr |>.map (fun v => { cur with amount := some v })
    else if c = 'N' then .ok { cur with action := some ⟨rest⟩ }
    else if c = 'Y' then .ok { cur with security := some ⟨rest⟩ }
    else if c = 'I' then
      (parseQifNumber ⟨rest⟩ d t).mapError nErr |>.map (fun v => { cur with price := some v })
    else if c = 'Q' then
      (parseQifNumber ⟨rest⟩ d t).mapError nErr |>.map (fun v => { cur with quantity := some v })
    else if c = 'C' then .ok { cur with cleared := some ⟨rest⟩ }
    else if c = 'M' then .ok { cur with memo := some ⟨rest⟩ }
    else if c = 'P' then .ok { cur with first_line := some ⟨rest⟩ }
    else if c = 'L' then .ok { cur with to_account := some ⟨(rest.drop 1).dropLast⟩ }
    else if c = '$' then
      (parseQifNumber ⟨rest⟩ d t).mapError nErr |>.map
        (fun v => { cur with amount_transfer := some v })
    else if c = 'O' then
      (parseQifNumber ⟨rest⟩ d t).mapError nErr |>.map (fun v => { cur with commission := some v })
    else .ok cur

/-- `QifParser.parseInvestment` on the list of lines of a chunk. -/
def parseInvestmentLines (fmt : DateFmt) (d : Char) (t : Option Char)
    (lines : List String) : Except DecErr Investment :=
  lines.foldlM (stepInv fmt d t) {}

/-- One line of `QifParser.parseAccount`. -/
def stepAcc (fmt : DateFmt) (cur : Account) (line : String) : Except DecErr Account :=
  match line.data with
  | [] => .ok cur
  | c :: rest =>
    if c = '\n' || strPre "!Account" line then .ok cur
    else if c = 'N' then .ok { cur with name := some ⟨rest⟩ }
    else if c = 'D' then .ok { cur with description := some ⟨rest⟩ }
    else if c = 'T' then .ok { cur with account_type := some ⟨rest⟩ }
    else if c = 'L' then .ok { cur with credit_limit := some ⟨rest⟩ }
    else if c = '/' then
      (parseQifDateTime ⟨rest⟩ fmt).mapError dErr |>.map
        (fun dt => { cur with balance_date := some dt })
    else if c = '$' then .ok { cur with balance_amount := some ⟨rest⟩ }
    else .ok cur

/-- `QifParser.parseAccount` on the list of lines of a chunk. -/
def parseAccountLines (fmt : DateFmt) (lines : List String) : Except DecErr Account :=
  lines.foldlM (stepAcc fmt) {}

/-- One line of `QifParser.parseCategory` (no failure paths). -/
def stepCat (cur : Category) (line : String) : Category :=
  match line.data with
  | [] => cur
  | c :: rest =>
    if c = '\n' || strPre "!Type" line then cur
    else if c = 'E' then { cur with expense_category := some true }
    else if c = 'I' then { cur with income_category := some true, expense_category := some false }
    else if c = 'T' then { cur with tax_related := some true }
    else if c = 'D' then { cur with description := some ⟨rest⟩ }
    else if c = 'B' then { cur with budget_amount := some ⟨rest⟩ }
    else if c = 'R' then { cur with tax_schedule_info := some ⟨rest⟩ }
    else if c = 'N' then { cur with name := some ⟨rest⟩ }
    else cur

/-- `QifParser.parseCategory` on the list of lines of a chunk. -/
def parseCategoryLines (lines : List String) : Category :=
  lines.foldl stepCat {}

/-- One line of `QifParser.parseClass` (no failure paths; only `N` and `D`
are recognized). -/
def stepCls (cur : QifClass) (line : String) : QifClass :=
  match line.data with
  | [] => cur
  | c :: rest =>
    if c = '\n' || strPre "!Type:Class" line then cur
    else if c = 'N' then { cur with name := some ⟨rest⟩ }
    else if c = 'D' then { cur with description := some ⟨rest⟩ }
    else cur

/-- `QifParser.parseClass` on the list of lines of a chunk. -/
def parseClassLines (lines : List String) : QifClass :=
  lines.foldl stepCls {}

/-! ## Section/chunk driver -/

/-- The section kinds tracked by `last_type` in `QifParser.parse`. -/
inductive RecKind
  | category
  | account
  | transaction
  | investment
  | classKind
  | memorized
deriving DecidableEq, Repr

/-- A transaction-kind record, as stored in a transaction list. -/
inductive TransItem
  | tr : Transaction → TransItem
  | inv : Investment → TransItem
  | mem : MemorizedTransaction → TransItem
deriving DecidableEq, Repr

/-- Modelled from the spec: the top-level `Qif` container (qifparse/qif.py
is not among the sources).  It owns ordered account, transaction, category
and class sequences; each account carries its own ordered transaction
list; transactions are tagged with the transactions-header string in
force when they were added. -/
structure Qif where
  accounts : List (Account × List (Option String × TransItem)) := []
  transactions : List (Option String × TransItem) := []
  categories : List Category := []
  classes : List QifClass := []
deriving DecidableEq, Repr

/-- Modelled from the spec: `Qif.add_account` appends the account, with an
empty transaction list, to the account sequence. -/
def addAccount (q : Qif) (a : Account) : Qif :=
  { q with accounts := q.accounts ++ [(a, [])] }

/-- Modelled from the spec: `Account.add_transaction` appends the tagged
record to the transaction list of the account at the given position,
leaving every other account untouched. -/
def updAcc : List (Account × List (Option String × TransItem)) → Nat →
    (Option String × TransItem) → List (Account × List (Option String × TransItem))
  | [], _, _ => []
  | e :: es, 0, x => (e.1, e.2 ++ [x]) :: es
  | e :: es, n + 1, x => e :: updAcc es n x

/-- Modelled from the spec: `Qif.add_transaction` appends the tagged record
to the top-level transaction list. -/
def addTransTop (q : Qif) (h : Option String) (it : TransItem) : Qif :=
  { q with transactions := q.transactions ++ [(h, it)] }

/-- The mutable state of one `QifParser.parse` invocation: the container
under construction, `last_type`, the last-seen-account cursor (as the
position of that account in the account sequence) and
`transactions_header`. -/
structure PState where
  qif : Qif := {}
  lastType : Option RecKind := none
  lastAccount : Option Nat := none
  header : Option String := none
deriving DecidableEq, Repr

/-- `NON_INVST_ACCOUNT_TYPES`. -/
def nonInvstHeaders : List String :=
  ["!Type:Cash", "!Type:Bank", "!Type:Ccard", "!Type:CCard",
   "!Type:Oth A", "!Type:Oth L", "!Type:Invoice"]

/-- The section kind established by a chunk's first line: a recognized
header line switches the kind, any other first line reuses the previous
one. -/
def resolveKind (lt : Option RecKind) (firstLine : String) : Option RecKind :=
  if firstLine = "!Type:Cat" then some .category
  else if firstLine = "!Account" then some .account
  else if nonInvstHeaders.contains firstLine then some .transaction
  else if firstLine = "!Type:Invst" then some .investment
  else if firstLine = "!Type:Class" then some .classKind
  else if firstLine = "!Type:Memorized" then some .memorized
  else lt

/-- The `transactions_header` value after inspecting a chunk's first line:
transaction-bearing headers record themselves, all other lines leave it. -/
def resolveHeader (hdr : Option String) (firstLine : String) : Option String :=
  if nonInvstHeaders.contains firstLine || firstLine = "!Type:Invst"
      || firstLine = "!Type:Memorized" then some firstLine
  else hdr

/-- Whether a first line is one of the recognized section headers. -/
def headerMatched (firstLine : String) : Bool :=
  firstLine = "!Type:Cat" || firstLine = "!Account" || nonInvstHeaders.contains firstLine
    || firstLine = "!Type:Invst" || firstLine = "!Type:Class" || firstLine = "!Type:Memorized"

/-- How a whole parse can fail: the fatal unrecognized-header error
(`QifParserException`), the KeyError of `parsers[None]` when the very
first chunks carry no recognized header, or a propagated decoder error. -/
inductive DriveErr
  | unrecognizedHeader
  | keyError
  | dec : DecErr → DriveErr
deriving DecidableEq, Repr

/-- Placement of a decoded transaction-kind record: it goes to the
last-seen account when the cursor is set, to the top-level container
otherwise. -/
def placeTrans (st : PState) (hdr : Option String) (k : RecKind) (it : TransItem) : PState :=
  match st.lastAccount with
  | some i =>
    { st with qif := { st.qif with accounts := updAcc st.qif.accounts i (hdr, it) },
              lastType := some k, header := hdr }
  | none =>
    { st with qif := addTransTop st.qif hdr it, lastType := some k, header := hdr }

/-- The loop body of `QifParser.parse` for one chunk: skip empty chunks,
inspect the first line, reject unrecognized `!` headers, dispatch to the
decoder of the current section kind, and thread the decoded record into
the right container. -/
def parseStep (fmt : DateFmt) (d : Char) (t : Option Char) (st : PState)
    (chunk : String) : Except DriveErr PState :=
  if chunk = "" then .ok st
  else
    if headerMatched ((splitChar '\n' chunk).headD "") = false && strPre "!" chunk then
      .error .unrecognizedHeader
    else
      match resolveKind st.lastType ((splitChar '\n' chunk).headD "") with
      | none => .error .keyError
      | some .category =>
        .ok { st with
          qif := { st.qif with
            categories := st.qif.categories ++ [parseCategoryLines (splitChar '\n' chunk)] },
          lastType := some .category,
          header := resolveHeader st.header ((splitChar '\n' chunk).headD "") }
      | some .classKind =>
        .ok { st with
          qif := { st.qif with
            classes := st.qif.classes ++ [parseClassLines (splitChar '\n' chunk)] },
          lastType := some .classKind,
          header := resolveHeader st.header ((splitChar '\n' chunk).headD "") }
      | some .account =>
        match parseAccountLines fmt (splitChar '\n' chunk) with
        | .error e => .error (.dec e)
        | .ok a =>
          .ok { st with qif := addAccount st.qif a,
                        lastType := some .account,
                        lastAccount := some st.qif.accounts.length,
                        header := resolveHeader st.header ((splitChar '\n' chunk).headD "") }
      | some .transaction =>
        match parseTransactionLines fmt d t (splitChar '\n' chunk) with
        | .error e => .error (.dec e)
        | .ok x =>
          .ok (placeTrans st (resolveHeader st.header ((splitChar '\n' chunk).headD ""))
            .transaction (.tr x))
      | some .investment =>
        match parseInvestmentLines fmt d t (splitChar '\n' chunk) with
        | .error e => .error (.dec e)
        | .ok x =>
          .ok (placeTrans st (resolveHeader st.header ((splitChar '\n' chunk).headD ""))
            .investment (.inv x))
      | some .memorized =>
        match parseMemorizedLines d t (splitChar '\n' chunk) with
        | .error e => .error (.dec e)
        | .ok x =>
          .ok (placeTrans st (resolveHeader st.header ((splitChar '\n' chunk).headD ""))
            .memorized (.mem x))

/-- The chunk loop of `QifParser.parse` over a list of chunks, from a given
state. -/
def parseRun (fmt : DateFmt) (d : Char) (t : Option Char) (st : PState)
    (chunks : List String) : Except DriveErr PState :=
  chunks.foldlM (parseStep fmt d t) st

/-- A concrete parse state for evaluating the driver: one account already
seen (cursor set to it), current section kind transaction, a recorded
transactions header. -/
def stWitA : PState :=
  { qif := { accounts := [({ name := some "A" }, [])] },
    lastType := some .transaction,
    lastAccount := some 0,
    header := some "!Type:Bank" }

/-- The state `stWitA` after decoding the chunk `Pshop`: the transaction
went to the account the cursor points at. -/
def stWitB : PState :=
  { qif := { accounts := [({ name := some "A" },
      [(some "!Type:Bank", .tr { payee := some "shop" })])] },
    lastType := some .transaction,
    lastAccount := some 0,
    header := some "!Type:Bank" }

/-! ## Helper lemmas -/

/-- Unfolding `stepTrans` on a non-empty line. -/
theorem stepTrans_cons (fmt : DateFmt) (d : Char) (t : Option Char) (cur : Transaction)
    (c : Char) (rest : List Char) :
    stepTrans fmt d t cur ⟨c :: rest⟩ = stepTransCore fmt d t cur c rest := rfl

/-- Unfolding `stepMem` on a non-empty line. -/
theorem stepMem_cons (d : Char) (t : Option Char) (cur : MemorizedTransaction)
    (c : Char) (rest : List Char) :
    stepMem d t cur ⟨c :: rest⟩ = stepMemCore d t cur c rest := rfl

/-- A transaction line that is not an `S` line leaves an empty split list
empty. -/
theorem stepTrans_splits_nil (fmt : DateFmt) (d : Char) (t : Option Char)
    (cur cur' : Transaction) (line : String)
    (hS : line.data.head? ≠ some 'S') (h0 : cur.splits = [])
    (h : stepTrans fmt d t cur line = .ok cur') : cur'.splits = [] := by
  obtain ⟨l⟩ := line
  cases l with
  | nil =>
    unfold stepTrans at h
    cases h; exact h0
  | cons c rest =>
    simp only [List.head?] at hS
    replace hS : c ≠ 'S' := fun hc => hS (congrArg some hc)
    rw [stepTrans_cons] at h
    unfold stepTransCore at h
    by_cases h1 : (c = '\n' || strPre "!Type" (⟨c :: rest⟩ : String)) = true
    · rw [if_pos h1] at h
      cases h; exact h0
    rw [if_neg h1] at h
    by_cases hD : c = 'D'
    · rw [if_pos hD] at h
      rcases hp : parseQifDateTime ⟨rest⟩ fmt with e | dt <;> rw [hp] at h <;>
        simp [Except.map, Except.mapError] at h
      rw [← h]; exact h0
    rw [if_neg hD] at h
    by_cases hN : c = 'N'
    · rw [if_pos hN] at h
      cases h; exact h0
    rw [if_neg hN] at h
    by_cases hT : c = 'T'
    · rw [if_pos hT] at h
      rcases hp : parseQifNumber ⟨rest⟩ d t with e | v <;> rw [hp] at h <;>
        simp [Except.map, Except.mapError] at h
      rw [← h]; exact h0
    rw [if_neg hT] at h
    by_cases hC : c = 'C'
    · rw [if_pos hC] at h
      cases h; exact h0
    rw [if_neg hC] at h
    by_cases hP : c = 'P'
    · rw [if_pos hP] at h
      cases h; exact h0
    rw [if_neg hP] at h
    by_cases hM : c = 'M'
    · rw [if_pos hM] at h
      cases h; exact h0
    rw [if_neg hM] at h
    by_cases hn1 : c = '1'
    · rw [if_pos hn1] at h
      cases h; exact h0
    rw [if_neg hn1] at h
    by_cases hn2 : c = '2'
    · rw [if_pos hn2] at h
      cases h; exact h0
    rw [if_neg hn2] at h
    by_cases hn3 : c = '3'
    · rw [if_pos hn3] at h
      cases h; exact h0
    rw [if_neg hn3] at h
    by_cases hn4 : c = '4'
    · rw [if_pos hn4] at h
      cases h; exact h0
    rw [if_neg hn4] at h
    by_cases hn5 : c = '5'
    · rw [if_pos hn5] at h
      cases h; exact h0
    rw [if_neg hn5] at h
    by_cases hn6 : c = '6'
    · rw [if_pos hn6] at h
      cases h; exact h0
    rw [if_neg hn6] at h
    by_cases hn7 : c = '7'
    · rw [if_pos hn7] at h
      cases h; exact h0
    rw [if_neg hn7] at h
    by_cases hA : c = 'A'
    · rw [if_pos hA] at h
      cases h; exact h0
    rw [if_neg hA] at h
    by_cases hL : c = 'L'
    · rw [if_pos hL] at h
      by_cases hb : strPre "[" (⟨rest⟩ : String) = true
      · rw [if_pos hb] at h; cases h; exact h0
      · rw [if_neg hb] at h; cases h; exact h0
    rw [if_neg hL] at h
    by_cases hSS : c = 'S'
    · exact absurd hSS hS
    rw [if_neg hSS] at h
    by_cases hE : c = 'E'
    · rw [if_pos hE, h0] at h
      simp [List.getLast?] at h
    rw [if_neg hE] at h
    by_cases hDol : c = '$'
    · rw [if_pos hDol, h0] at h
      simp [List.getLast?] at h
    rw [if_neg hDol] at h
    cases h; exact h0

/-- A memorized-transaction line that is not an `S` line leaves an empty
split list empty. -/
theorem stepMem_splits_nil (d : Char) (t : Option Char)
    (cur cur' : MemorizedTransaction) (line : String)
    (hS : line.data.head? ≠ some 'S') (h0 : cur.splits = [])
    (h : stepMem d t cur line = .ok cur') : cur'.splits = [] := by
  obtain ⟨l⟩ := line
  cases l with
  | nil =>
    unfold stepMem at h
    cases h; exact h0
  | cons c rest =>
    simp only [List.head?] at hS
    replace hS : c ≠ 'S' := fun hc => hS (congrArg some hc)
    rw [stepMem_cons] at h
    unfold stepMemCore at h
    by_cases h1 : (c = '\n' || strPre "!Type:Memorized" (⟨c :: rest⟩ : String)) = true
    · rw [if_pos h1] at h
      cases h; exact h0
    rw [if_neg h1] at h
    by_cases hT : c = 'T'
    · rw [if_pos hT] at h
      rcases hp : parseQifNumber ⟨rest⟩ d t with e | v <;> rw [hp] at h <;>
        simp [Except.map, Except.mapError] at h
      rw [← h]; exact h0
    rw [if_neg hT] at h
    by_cases hC : c = 'C'
    · rw [if_pos hC] at h
      cases h; exact h0
    rw [if_neg hC] at h
    by_cases hP : c = 'P'
    · rw [if_pos hP] at h
      cases h; exact h0
    rw [if_neg hP] at h
    by_cases hM : c = 'M'
    · rw [if_pos hM] at h
      cases h; exact h0
    rw [if_neg hM] at h
    by_cases hK : c = 'K'
    · rw [if_pos hK] at h
      cases h; exact h0
    rw [if_neg hK] at h
    by_cases hA : c = 'A'
    · rw [if_pos hA] at h
      cases h; exact h0
    rw [if_neg hA] at h
    by_cases hL : c = 'L'
    · rw [if_pos hL] at h
      by_cases hb : strPre "[" (⟨rest⟩ : String) = true
      · rw [if_pos hb] at h; cases h; exact h0
      · rw [if_neg hb] at h; cases h; exact h0
    rw [if_neg hL] at h
    by_cases hSS : c = 'S'
    · exact absurd hSS hS
    rw [if_neg hSS] at h
    by_cases hE : c = 'E'
    · rw [if_pos hE, h0] at h
      simp [List.getLast?] at h
    rw [if_neg hE] at h
    by_cases hDol : c = '$'
    · rw [if_pos hDol, h0] at h
      simp [List.getLast?] at h
    rw [if_neg hDol] at h
    cases h; exact h0

/-- A `$` or `E` line hitting an empty split list raises IndexError
(transaction decoder). -/
theorem stepTrans_detail_nil (fmt : DateFmt) (d : Char) (t : Option Char)
    (t0 : Transaction) (l : String)
    (htag : l.data.head? = some '$' ∨ l.data.head? = some 'E')
    (h0 : t0.splits = []) :
    stepTrans fmt d t t0 l = .error .indexError := by
  obtain ⟨ld⟩ := l
  cases ld with
  | nil => simp [List.head?] at htag
  | cons c rest =>
    simp only [List.head?, Option.some.injEq] at htag
    rcases htag with hc | hc <;> subst hc
    · have key : stepTransCore fmt d t t0 '$' rest =
          (match t0.splits.getLast? with
           | none => Except.error DecErr.indexError
           | some sp =>
             ((parseQifNumber ⟨rest.dropLast⟩ d t).mapError nErr).map
               (fun x => { t0 with splits := t0.splits.dropLast ++ [{ sp with amount := some x }] })) := rfl
      rw [stepTrans_cons, key, h0]
      rfl
    · have key : stepTransCore fmt d t t0 'E' rest =
          (match t0.splits.getLast? with
           | none => Except.error DecErr.indexError
           | some sp =>
             Except.ok { t0 with splits := t0.splits.dropLast ++ [{ sp with memo := some ⟨rest.dropLast⟩ }] }) := rfl
      rw [stepTrans_cons, key, h0]
      rfl

/-- A `$` or `E` line hitting an empty split list raises IndexError
(memorized-transaction decoder). -/
theorem stepMem_detail_nil (d : Char) (t : Option Char)
    (m0 : MemorizedTransaction) (l : String)
    (htag : l.data.head? = some '$' ∨ l.data.head? = some 'E')
    (h0 : m0.splits = []) :
    stepMem d t m0 l = .error .indexError := by
  obtain ⟨ld⟩ := l
  cases ld with
  | nil => simp [List.head?] at htag
  | cons c rest =>
    simp only [List.head?, Option.some.injEq] at htag
    rcases htag with hc | hc <;> subst hc
    · have key : stepMemCore d t m0 '$' rest =
          (match m0.splits.getLast? with
           | none => Except.error DecErr.indexError
           | some sp =>
             ((parseQifNumber ⟨rest.dropLast⟩ d t).mapError nErr).map
               (fun x => { m0 with splits := m0.splits.dropLast ++ [{ sp with amount := some x }] })) := rfl
      rw [stepMem_cons, key, h0]
      rfl
    · have key : stepMemCore d t m0 'E' rest =
          (match m0.splits.getLast? with
           | none => Except.error DecErr.indexError
           | some sp =>
             Except.ok { m0 with splits := m0.splits.dropLast ++ [{ sp with memo := some ⟨rest.dropLast⟩ }] }) := rfl
      rw [stepMem_cons, key, h0]
      rfl

/-- Folding `S`-free lines keeps the transaction split list empty. -/
theorem foldTrans_splits_nil (fmt : DateFmt) (d : Char) (t : Option Char) :
    ∀ (pre : List String) (cur t0 : Transaction),
    (∀ p ∈ pre, p.data.head? ≠ some 'S') → cur.splits = [] →
    pre.foldlM (stepTrans fmt d t) cur = .ok t0 → t0.splits = [] := by
  intro pre
  induction pre with
  | nil =>
    intro cur t0 _ h0 h
    simp [List.foldlM, pure, Except.pure] at h
    rw [← h]; exact h0
  | cons p ps ih =>
    intro cur t0 hpre h0 h
    simp only [List.foldlM_cons] at h
    rcases hs : stepTrans fmt d t cur p with e | mid <;> rw [hs] at h
    · change (Except.error e : Except DecErr Transaction) = Except.ok t0 at h
      exact Except.noConfusion h
    · change ps.foldlM (stepTrans fmt d t) mid = Except.ok t0 at h
      exact ih mid t0 (fun q hq => hpre q (List.mem_cons_of_mem _ hq))
        (stepTrans_splits_nil fmt d t cur mid p (hpre p (List.mem_cons_self _ _)) h0 hs) h

/-- Folding `S`-free lines keeps the memorized split list empty. -/
theorem foldMem_splits_nil (d : Char) (t : Option Char) :
    ∀ (pre : List String) (cur m0 : MemorizedTransaction),
    (∀ p ∈ pre, p.data.head? ≠ some 'S') → cur.splits = [] →
    pre.foldlM (stepMem d t) cur = .ok m0 → m0.splits = [] := by
  intro pre
  induction pre with
  | nil =>
    intro cur m0 _ h0 h
    simp [List.foldlM, pure, Except.pure] at h
    rw [← h]; exact h0
  | cons p ps ih =>
    intro cur m0 hpre h0 h
    simp only [List.foldlM_cons] at h
    rcases hs : stepMem d t cur p with e | mid <;> rw [hs] at h
    · change (Except.error e : Except DecErr MemorizedTransaction) = Except.ok m0 at h
      exact Except.noConfusion h
    · change ps.foldlM (stepMem d t) mid = Except.ok m0 at h
      exact ih mid m0 (fun q hq => hpre q (List.mem_cons_of_mem _ hq))
        (stepMem_splits_nil d t cur mid p (hpre p (List.mem_cons_self _ _)) h0 hs) h

/-- A left fold in `Except` that reaches a failing element fails. -/
theorem foldlM_append_err {α β : Type} (f : β → α → Except DecErr β) :
    ∀ (pre : List α) (l : α) (post : List α) (init mid : β),
    pre.foldlM f init = .ok mid → f mid l = .error .indexError →
    (pre ++ l :: post).foldlM f init = .error .indexError := by
  intro pre
  induction pre with
  | nil =>
    intro l post init mid hp hl
    simp [List.foldlM, pure, Except.pure] at hp
    subst hp
    simp only [List.nil_append, List.foldlM_cons, hl]
    rfl
  | cons p ps ih =>
    intro l post init mid hp hl
    simp only [List.foldlM_cons] at hp
    rcases hs : f init p with e | mid1 <;> rw [hs] at hp
    · change (Except.error e : Except DecErr β) = Except.ok mid at hp
      exact Except.noConfusion hp
    · change ps.foldlM f mid1 = Except.ok mid at hp
      simp only [List.cons_append, List.foldlM_cons, hs]
      change (ps ++ l :: post).foldlM f mid1 = Except.error DecErr.indexError
      exact ih l post mid1 mid hp hl

/-- C10: in transaction and memorized-transaction decoding, a split-detail
line (tag `$` or `E`) occurring before any `S` line in the chunk (the
earlier lines having decoded without error) hits `splits[-1]` on the empty
split sequence: decoding stops with the uncaught IndexError, which is none
of the parser's own error kinds, and no record is returned. -/
theorem claim_c10 : ∀ (fmt : DateFmt) (d : Char) (t : Option Char)
    (pre : List String) (l : String) (post : List String),
    (∀ p ∈ pre, p.data.head? ≠ some 'S') →
    (l.data.head? = some '$' ∨ l.data.head? = some 'E') →
    ((∀ t0, pre.foldlM (stepTrans fmt d t) ({} : Transaction) = .ok t0 →
        parseTransactionLines fmt d t (pre ++ l :: post) = .error .indexError)
     ∧ (∀ m0, pre.foldlM (stepMem d t) ({} : MemorizedTransaction) = .ok m0 →
        parseMemorizedLines d t (pre ++ l :: post) = .error .indexError))
    ∧ (DecErr.indexError ≠ .invalidDate ∧ DecErr.indexError ≠ .numInvalid
       ∧ DecErr.indexError ≠ .numCollision) := by
  intro fmt d t pre l post hpre htag
  refine ⟨⟨fun t0 hfold => ?_, fun m0 hfold => ?_⟩, by decide, by decide, by decide⟩
  · have hnil := foldTrans_splits_nil fmt d t pre {} t0 hpre rfl hfold
    exact foldlM_append_err (stepTrans fmt d t) pre l post {} t0 hfold
      (stepTrans_detail_nil fmt d t t0 l htag hnil)
  · have hnil := foldMem_splits_nil d t pre {} m0 hpre rfl hfold
    exact foldlM_append_err (stepMem d t) pre l post {} m0 hfold
      (stepMem_detail_nil d t m0 l htag hnil)

/-- Witness for C10 at the one-line chunk `$10`. -/
theorem claim_c10_witness :
    ((∀ p ∈ ([] : List String), p.data.head? ≠ some 'S')
      ∧ ("$10" : String).data.head? = some '$')
    ∧ parseTransactionLines .dmy '.' none ["$10"] = .error .indexError
    ∧ parseMemorizedLines '.' none ["$10"] = .error .indexError := by
  refine ⟨⟨by simp, by decide⟩, ?_, ?_⟩
  · exact ((claim_c10 .dmy '.' none [] "$10" [] (by simp) (Or.inl (by decide))).1.1
      {} (by decide))
  · exact ((claim_c10 .dmy '.' none [] "$10" [] (by simp) (Or.inl (by decide))).1.2
      {} (by decide))

/-- C2: the single sample `23/10/2013` makes `guessDateFormat` return the
day-month-year order, and parsing that sample under that order yields the
calendar date 2013-10-23. -/
theorem claim_c2 :
    guessDateFormat ["23/10/2013"] = .ok .dmy
    ∧ parseQifDateTime "23/10/2013" .dmy = .ok ⟨2013, 10, 23⟩ := by decide

/-- Counterexample to C4 as stated: on the amount string `abc` with
decimal separator `.` and thousands separator `,` the block condition is
satisfied (one block of three characters), yet `parseQifNumber` neither
returns the concatenated decimal `abc.0` nor raises the invalid-number
error: the final `Decimal("abc.0")` constructor raises an uncaught
`decimal.InvalidOperation`. -/
theorem claim_c4_cex :
    thouBlocksOk (splitChar ',' "abc") = true
    ∧ parseQifNumber "abc" '.' (some ',') = .error .invalidOp
    ∧ parseQifNumber "abc" '.' (some ',') ≠ .ok "abc.0"
    ∧ parseQifNumber "abc" '.' (some ',') ≠ .error .invalid := by decide

/-- C4 (amended): for each candidate with a non-empty thousands separator,
once the decimal-separator stage has produced integer and fractional parts,
a failing block condition raises the invalid-number error; a passing block
condition yields the exact decimal built from the separator-stripped
integer part, a literal point and the fractional part whenever that
literal is valid for the `Decimal` constructor, and an uncaught
`decimal.InvalidOperation` otherwise; an amount string in which the
decimal separator occurs more than once raises the invalid-number error
before the block condition is examined. -/
theorem claim_c4 :
    ∀ d tc : Char, ((d, tc) = ('.', ',') ∨ (d, tc) = (',', '.')) →
    ∀ q : String,
      (∀ ip fp, pyDecSplit q d = .ok (ip, fp) →
        (thouBlocksOk (splitChar tc ip) = false →
            parseQifNumber q d (some tc) = .error .invalid)
        ∧ (thouBlocksOk (splitChar tc ip) = true →
            (pyDecValid (stripThou tc ip ++ "." ++ fp) = true →
                parseQifNumber q d (some tc) = .ok (stripThou tc ip ++ "." ++ fp))
            ∧ (pyDecValid (stripThou tc ip ++ "." ++ fp) = false →
                parseQifNumber q d (some tc) = .error .invalidOp)))
      ∧ (pyDecSplit q d = .error .invalid →
          parseQifNumber q d (some tc) = .error .invalid) := by
  intro d tc hmem q
  have hne : ¬ (some tc = some d) := by
    rcases hmem with h | h <;> cases h <;> decide
  constructor
  · intro ip fp hsplit
    constructor
    · intro hblocks
      unfold parseQifNumber
      rw [if_neg hne, hsplit]
      show (if thouBlocksOk (splitChar tc ip) = true then mkDec (stripThou tc ip) fp
            else Except.error NumErr.invalid) = _
      rw [if_neg (by rw [hblocks]; exact Bool.false_ne_true)]
    · intro hblocks
      constructor
      · intro hvalid
        unfold parseQifNumber
        rw [if_neg hne, hsplit]
        show (if thouBlocksOk (splitChar tc ip) = true then mkDec (stripThou tc ip) fp
              else Except.error NumErr.invalid) = _
        rw [if_pos hblocks]
        show (if pyDecValid (stripThou tc ip ++ "." ++ fp) = true
              then Except.ok (stripThou tc ip ++ "." ++ fp)
              else Except.error NumErr.invalidOp) = _
        rw [if_pos hvalid]
      · intro hvalid
        unfold parseQifNumber
        rw [if_neg hne, hsplit]
        show (if thouBlocksOk (splitChar tc ip) = true then mkDec (stripThou tc ip) fp
              else Except.error NumErr.invalid) = _
        rw [if_pos hblocks]
        show (if pyDecValid (stripThou tc ip ++ "." ++ fp) = true
              then Except.ok (stripThou tc ip ++ "." ++ fp)
              else Except.error NumErr.invalidOp) = _
        rw [if_neg (by rw [hvalid]; exact Bool.false_ne_true)]
  · intro hsplit
    unfold parseQifNumber
    rw [if_neg hne, hsplit]

/-- Witness for C4 at the amount string `1,234.56`. -/
theorem claim_c4_witness :
    pyDecSplit "1,234.56" '.' = .ok ("1,234", "56")
    ∧ thouBlocksOk (splitChar ',' "1,234") = true
    ∧ parseQifNumber "1,234.56" '.' (some ',') = .ok "1234.56" := by
  refine ⟨by decide, by decide, ?_⟩
  have h := (((claim_c4 '.' ',' (Or.inl rfl) "1,234.56").1 "1,234" "56"
    (by decide)).2 (by decide)).1 (by decide)
  have e : stripThou ',' "1,234" ++ "." ++ "56" = "1234.56" := by decide
  rw [e] at h
  exact h

/-- Counterexample to C6 as stated: on the empty string (whose component
count would be 1, not 3) `parseQifDateTime` does not raise the
invalid-date error: the negative index `qdate[-2]` raises an uncaught
IndexError first.  The claim fails for strings of length 0 or 1. -/
theorem claim_c6_cex :
    parseQifDateTime "" .dmy = .error .crash
    ∧ parseQifDateTime "" .dmy ≠ .error .invalid
    ∧ (splitW (pyStrip "")).length ≠ 3 := by
  refine ⟨by decide, by decide, by decide⟩

/-- C6 (amended): whenever the apostrophe normalization indexing stays in
range (length at least 3, or length 2 with a leading apostrophe), a
normalized-and-stripped string that does not split on runs of non-word
characters into exactly three components makes `parseQifDateTime` raise
the fatal invalid-date error; when the indexing is out of range (length 0
or 1, or length 2 without a leading apostrophe) the uncaught IndexError
propagates instead. -/
theorem claim_c6 : ∀ (s : String) (fmt : DateFmt),
    (∀ ns, normQifDate s = some ns → (splitW (pyStrip ns)).length ≠ 3 →
        parseQifDateTime s fmt = .error .invalid)
    ∧ (normQifDate s = none → parseQifDateTime s fmt = .error .crash) := by
  intro s fmt
  constructor
  · intro ns hns hlen
    unfold parseQifDateTime
    rw [hns]
    show parseDateCore (pyStrip ns) fmt = _
    unfold parseDateCore
    rcases hl : splitW (pyStrip ns) with _ | ⟨a, _ | ⟨b, _ | ⟨c, _ | ⟨e, rest⟩⟩⟩⟩
    · rfl
    · rfl
    · rfl
    · rw [hl] at hlen; simp at hlen
    · rfl
  · intro hnone
    unfold parseQifDateTime
    rw [hnone]

/-- Witness for C6 at the two-component date string `1/2`. -/
theorem claim_c6_witness :
    (normQifDate "1/2" = some "1/2" ∧ (splitW (pyStrip "1/2")).length ≠ 3)
    ∧ parseQifDateTime "1/2" .dmy = .error .invalid := by
  refine ⟨⟨by decide, by decide⟩, ?_⟩
  exact (claim_c6 "1/2" .dmy).1 "1/2" (by decide) (by decide)

/-- The character data of a constructed string. -/
theorem strData_mk (l : List Char) : (⟨l⟩ : String).data = l := rfl

/-- String concatenation concatenates character data. -/
theorem data_app (a b : String) : (a ++ b).data = a.data ++ b.data := by
  cases a; cases b; rfl

/-- The data of the apostrophe string. -/
theorem sq_data : sq.data = [apos] := rfl

/-- The replacement fold is a homomorphism for the accumulator. -/
theorem repAux (c : Char) (rep : String) :
    ∀ (l acc : List Char),
    l.foldr (fun x a => if x = c then rep.data ++ a else x :: a) acc
      = l.foldr (fun x a => if x = c then rep.data ++ a else x :: a) [] ++ acc := by
  intro l
  induction l with
  | nil => intro acc; simp
  | cons x xs ih =>
    intro acc
    simp only [List.foldr_cons]
    by_cases hx : x = c
    · rw [if_pos hx, if_pos hx, ih acc, List.append_assoc]
    · rw [if_neg hx, if_neg hx, ih acc]
      rfl

/-- Replacing a character absent from a list is the identity. -/
theorem repNone (c : Char) (rep : String) :
    ∀ (l : List Char), c ∉ l →
    l.foldr (fun x a => if x = c then rep.data ++ a else x :: a) [] = l := by
  intro l
  induction l with
  | nil => intro _; rfl
  | cons x xs ih =>
    intro hn
    simp only [List.foldr_cons]
    rw [if_neg (fun h => hn (List.mem_cons.mpr (Or.inl h.symm))),
      ih (fun h => hn (List.mem_cons_of_mem _ h))]

/-- Replacing the single apostrophe between two apostrophe-free strings. -/
theorem replace_apos_concat (rep u w : String)
    (hu : apos ∉ u.data) (hw : apos ∉ w.data) :
    replaceChar apos rep (u ++ sq ++ w) = u ++ rep ++ w := by
  unfold replaceChar
  have hdata : (u ++ sq ++ w).data = (u.data ++ [apos]) ++ w.data := by
    rw [data_app, data_app, sq_data]
  rw [hdata, List.foldr_append, List.foldr_append,
    repNone apos rep w.data hw]
  simp only [List.foldr_cons, List.foldr_nil, if_pos rfl]
  rw [repAux apos rep u.data, repNone apos rep u.data hu]
  show (⟨u.data ++ (rep.data ++ w.data)⟩ : String) = u ++ rep ++ w
  have : (u ++ rep ++ w).data = u.data ++ (rep.data ++ w.data) := by
    simp [data_app]
  rw [← this]

/-- Normalization when the apostrophe is the second-to-last character. -/
theorem norm_rev2 (s : String) (c1 : Char) (rest : List Char)
    (h : s.data.reverse = c1 :: apos :: rest) :
    normQifDate s = some (replaceChar apos "/200" s) := by
  unfold normQifDate
  rw [h]
  rfl

/-- Normalization when the apostrophe is the third-to-last character only. -/
theorem norm_rev3 (s : String) (c1 c2 : Char) (rest : List Char)
    (h : s.data.reverse = c1 :: c2 :: apos :: rest) (h2 : c2 ≠ apos) :
    normQifDate s = some (replaceChar apos "/20" s) := by
  unfold normQifDate
  rw [h]
  show (if c2 = apos then some (replaceChar apos "/200" s)
        else some (replaceChar apos "/20" s)) = _
  rw [if_neg h2]

/-- Normalization when neither watched position holds an apostrophe. -/
theorem norm_rev_other (s : String) (c1 c2 c3 : Char) (rest : List Char)
    (h : s.data.reverse = c1 :: c2 :: c3 :: rest) (h2 : c2 ≠ apos) (h3 : c3 ≠ apos) :
    normQifDate s = some (replaceChar apos "/" s) := by
  unfold normQifDate
  rw [h]
  show (if c2 = apos then some (replaceChar apos "/200" s)
        else if c3 = apos then some (replaceChar apos "/20" s)
        else some (replaceChar apos "/" s)) = _
  rw [if_neg h2, if_neg h3]

/-- C5 (amended): writing the date string as `u` + apostrophe + `w` with
`u`, `w` apostrophe-free, the trailing length `w.length = 1` means the
apostrophe is the second-to-last character and it is replaced by `/200`
(a one-digit year offset from 2000); `w.length = 2` means third-to-last
and `/20`; in any other position it becomes the plain separator `/` —
provided the position tests stay in range, which for an apostrophe-final
string (`w` empty) needs `u` of length at least 2.  The two-digit-year
examples parse to 2003 and 2012. -/
theorem claim_c5 :
    (∀ u w : String, apos ∉ u.data → apos ∉ w.data →
      ((w.length = 1 → normQifDate (u ++ sq ++ w) = some (u ++ "/200" ++ w))
       ∧ (w.length = 2 → normQifDate (u ++ sq ++ w) = some (u ++ "/20" ++ w))
       ∧ (w.length = 0 → 2 ≤ u.length → normQifDate (u ++ sq ++ w) = some (u ++ "/" ++ w))
       ∧ (3 ≤ w.length → normQifDate (u ++ sq ++ w) = some (u ++ "/" ++ w))))
    ∧ parseQifDateTime ("1/1" ++ sq ++ "3") .dmy = .ok ⟨2003, 1, 1⟩
    ∧ parseQifDateTime ("1/1" ++ sq ++ "12") .dmy = .ok ⟨2012, 1, 1⟩ := by
  refine ⟨?_, by decide, by decide⟩
  intro u w hu hw
  have hdata : (u ++ sq ++ w).data = (u.data ++ [apos]) ++ w.data := by
    rw [data_app, data_app, sq_data]
  refine ⟨?_, ?_, ?_, ?_⟩
  · intro hw1
    rw [String.length] at hw1
    rcases List.length_eq_one.mp hw1 with ⟨cw, hcw⟩
    have hrev : (u ++ sq ++ w).data.reverse = cw :: apos :: u.data.reverse := by
      rw [hdata, hcw]
      simp
    rw [norm_rev2 _ _ _ hrev, replace_apos_concat _ _ _ hu hw]
  · intro hw2
    rw [String.length] at hw2
    rcases w with ⟨wl⟩
    rcases wl with _ | ⟨a, _ | ⟨b, _ | ⟨e, t⟩⟩⟩ <;> simp at hw2
    have hrev : (u ++ sq ++ (⟨[a, b]⟩ : String)).data.reverse
        = b :: a :: apos :: u.data.reverse := by
      rw [hdata]
      simp [strData_mk]
    have ha : a ≠ apos := fun h => hw (by rw [h]; exact List.mem_cons_self _ _)
    rw [norm_rev3 _ _ _ _ hrev ha, replace_apos_concat _ _ _ hu hw]
  · intro hw0 hu2
    rcases w with ⟨wl⟩
    rw [String.length] at hw0
    have hwnil : wl = [] := List.eq_nil_of_length_eq_zero hw0
    subst hwnil
    rw [String.length] at hu2
    rcases u with ⟨ul⟩
    have : 2 ≤ ul.reverse.length := by simpa using hu2
    rcases hr : ul.reverse with _ | ⟨x, _ | ⟨y, r⟩⟩ <;> rw [hr] at this <;> simp at this
    have hrev : ((⟨ul⟩ : String) ++ sq ++ (⟨[]⟩ : String)).data.reverse
        = apos :: x :: y :: r := by
      rw [hdata]
      simp [strData_mk, hr]
    have hx : x ≠ apos := fun h => hu (by
      rw [← List.mem_reverse, hr, h]; exact List.mem_cons_self _ _)
    have hy : y ≠ apos := fun h => hu (by
      rw [← List.mem_reverse, hr, h]
      exact List.mem_cons_of_mem _ (List.mem_cons_self _ _))
    rw [norm_rev_other _ _ _ _ _ hrev hx hy, replace_apos_concat _ _ _ hu hw]
  · intro hw3
    rcases w with ⟨wl⟩
    rw [String.length] at hw3
    have : 3 ≤ wl.reverse.length := by simpa using hw3
    rcases hr : wl.reverse with _ | ⟨r0, _ | ⟨r1, _ | ⟨r2, rr⟩⟩⟩ <;> rw [hr] at this <;>
      simp at this
    have hrev : ((u : String) ++ sq ++ (⟨wl⟩ : String)).data.reverse
        = r0 :: r1 :: r2 :: (rr ++ apos :: u.data.reverse) := by
      rw [hdata]
      simp [strData_mk, hr]
    have h1 : r1 ≠ apos := fun h => hw (by
      rw [strData_mk, ← List.mem_reverse, hr, h]
      exact List.mem_cons_of_mem _ (List.mem_cons_self _ _))
    have h2 : r2 ≠ apos := fun h => hw (by
      rw [strData_mk, ← List.mem_reverse, hr, h]
      exact List.mem_cons_of_mem _ (List.mem_cons_of_mem _ (List.mem_cons_self _ _)))
    rw [norm_rev_other _ _ _ _ _ hrev h1 h2, replace_apos_concat _ _ _ hu hw]

/-- Counterexample to C5 as stated: in the length-2 string `a` +
apostrophe the apostrophe is the last character, so the claim prescribes
plain-separator treatment, but `qdate[-3]` raises an uncaught IndexError:
no normalized string is produced and `parseQifDateTime` crashes. -/
theorem claim_c5_cex :
    normQifDate ("a" ++ sq) = none
    ∧ normQifDate ("a" ++ sq) ≠ some (replaceChar apos "/" ("a" ++ sq))
    ∧ parseQifDateTime ("a" ++ sq) .dmy = .error .crash := by decide

/-- Witness for C5 at `1/1` + apostrophe + `3`. -/
theorem claim_c5_witness :
    (apos ∉ ("1/1" : String).data ∧ apos ∉ ("3" : String).data
      ∧ ("3" : String).length = 1)
    ∧ normQifDate ("1/1" ++ sq ++ "3") = some ("1/1" ++ "/200" ++ "3") := by
  refine ⟨⟨by decide, by decide, by decide⟩, ?_⟩
  exact ((claim_c5.1 "1/1" "3" (by decide) (by decide)).1 (by decide))

/-- A sample every candidate of which parses without an uncaught error
filters the candidate list. -/
theorem dateFilterOnce_eq (s : String) :
    ∀ fs : List DateFmt, (∀ f ∈ fs, isDateSafe (parseQifDateTime s f) = true) →
    dateFilterOnce fs s = .ok (fs.filter (fun f => isOkB (parseQifDateTime s f))) := by
  intro fs
  induction fs with
  | nil => intro _; rfl
  | cons f fs ih =>
    intro hsafe
    show (match parseQifDateTime s f with
          | .ok _ => (dateFilterOnce fs s).map (f :: ·)
          | .error .invalid => dateFilterOnce fs s
          | .error .crash => .error .crash
          | .error .overflow => .error .overflow) = _
    have hrec := ih (fun g hg => hsafe g (List.mem_cons_of_mem _ hg))
    have hf := hsafe f (List.mem_cons_self _ _)
    rcases hq : parseQifDateTime s f with e | dd
    · cases e
      · rw [hrec]
        simp [List.filter, isOkB, hq]
      · simp [hq, isDateSafe] at hf
      · simp [hq, isDateSafe] at hf
    · rw [hrec]
      simp [List.filter, isOkB, hq, Except.map]

/-- With every sample safe on the surviving candidates, the whole date
elimination fold is pure filtering. -/
theorem guessDate_fold (samples : List String) :
    ∀ init : List DateFmt,
    (∀ s ∈ samples, ∀ f ∈ init, isDateSafe (parseQifDateTime s f) = true) →
    samples.foldlM dateFilterOnce init
      = .ok (samples.foldl
          (fun fs s => fs.filter (fun f => isOkB (parseQifDateTime s f))) init) := by
  induction samples with
  | nil => intro init _; rfl
  | cons s ss ih =>
    intro init hinit
    simp only [List.foldlM_cons, List.foldl_cons]
    rw [dateFilterOnce_eq s init (hinit s (List.mem_cons_self _ _))]
    change ss.foldlM dateFilterOnce _ = _
    exact ih _ (fun q hq f hf =>
      hinit q (List.mem_cons_of_mem _ hq) f (List.mem_of_mem_filter hf))

/-- An uncaught OverflowError aborts the guess: on the sample
`1/1/5000000000` the year does not fit in a C int, so `guessDateFormat`
crashes instead of reporting inconsistent dates. -/
theorem guessDate_overflow_sample :
    guessDateFormat ["1/1/5000000000"] = .error .overflow
    ∧ isDateSafe (parseQifDateTime "1/1/5000000000" .dmy) = false := by
  refine ⟨by decide, by decide⟩

/-- C1: provided no sample makes any candidate parse end in an uncaught
IndexError or OverflowError, after the candidate orders have been
filtered against every sample (elimination permanent across the whole
sample set), `guessDateFormat` returns the single survivor, raises the
inconsistent-dates error on zero survivors and the ambiguity error on
several; in particular the single sample `01/02/2016` raises the
ambiguity error. -/
theorem claim_c1 :
    (∀ samples : List String,
      (∀ s ∈ samples, ∀ f ∈ dateCandidates, isDateSafe (parseQifDateTime s f) = true) →
      guessDateFormat samples =
        (match survDate samples with
         | [] => Except.error GDateErr.inconsistent
         | [f] => Except.ok f
         | _ :: _ :: _ => Except.error GDateErr.ambiguous))
    ∧ guessDateFormat ["01/02/2016"] = .error .ambiguous := by
  refine ⟨?_, by decide⟩
  intro samples h
  unfold guessDateFormat survDate
  rw [guessDate_fold samples dateCandidates h]
  rcases hfold : samples.foldl
      (fun fs s => fs.filter (fun f => isOkB (parseQifDateTime s f))) dateCandidates
    with _ | ⟨f, _ | ⟨g, rest⟩⟩ <;> rw [hfold]

/-- Witness for C1 at the sample list containing only `01/02/2016`. -/
theorem claim_c1_witness :
    (∀ s ∈ ["01/02/2016"], ∀ f ∈ dateCandidates,
      isDateSafe (parseQifDateTime s f) = true)
    ∧ guessDateFormat ["01/02/2016"] =
        (match survDate ["01/02/2016"] with
         | [] => Except.error GDateErr.inconsistent
         | [f] => Except.ok f
         | _ :: _ :: _ => Except.error GDateErr.ambiguous) :=
  ⟨by decide, claim_c1.1 ["01/02/2016"] (by decide)⟩

/-- The decimal-separator stage never reports a separator collision. -/
theorem pyDecSplit_not_collision (q : String) (d : Char) :
    pyDecSplit q d ≠ .error .collision := by
  unfold pyDecSplit
  split
  · split <;> simp
  · simp

/-- The Decimal constructor never reports a separator collision. -/
theorem mkDec_not_collision (i f : String) : mkDec i f ≠ .error .collision := by
  unfold mkDec
  show (if pyDecValid (i ++ "." ++ f) = true then Except.ok (i ++ "." ++ f)
        else Except.error NumErr.invalidOp) ≠ _
  split <;> simp

/-- With distinct separators, `parseQifNumber` never raises the collision
exception. -/
theorem parseQifNumber_not_collision (q : String) (d : Char) (t : Option Char)
    (h : ¬ (t = some d)) : parseQifNumber q d t ≠ .error .collision := by
  unfold parseQifNumber
  rw [if_neg h]
  rcases hs : pyDecSplit q d with e | ⟨ip, fp⟩
  · cases e
    · exact absurd hs (pyDecSplit_not_collision q d)
    · simp
    · simp
  · show (match t with
          | some tc =>
            if thouBlocksOk (splitChar tc ip) = true then mkDec (stripThou tc ip) fp
            else Except.error NumErr.invalid
          | none =>
            match pyInt ip with
            | some n => mkDec (toString n) fp
            | none => Except.error NumErr.invalid) ≠ _
    rcases t with _ | tc
    · show (match pyInt ip with
            | some n => mkDec (toString n) fp
            | none => Except.error NumErr.invalid) ≠ _
      rcases hpi : pyInt ip with _ | n
      · simp
      · exact mkDec_not_collision _ _
    · show (if thouBlocksOk (splitChar tc ip) = true then mkDec (stripThou tc ip) fp
            else Except.error NumErr.invalid) ≠ _
      by_cases hb : thouBlocksOk (splitChar tc ip) = true
      · rw [if_pos hb]; exact mkDec_not_collision _ _
      · rw [if_neg hb]; simp

/-- With collision-free candidates, one elimination pass is list filtering. -/
theorem numFilterOnce_eq (s : String) :
    ∀ ps : List (Char × Option Char), (∀ p ∈ ps, ¬ (p.2 = some p.1)) →
    numFilterOnce ps s = .ok (ps.filter (fun p => isOkB (parseQifNumber s p.1 p.2))) := by
  intro ps
  induction ps with
  | nil => intro _; rfl
  | cons p ps ih =>
    intro hps
    show (match parseQifNumber s p.1 p.2 with
          | .ok _ => (numFilterOnce ps s).map (p :: ·)
          | .error .invalid => numFilterOnce ps s
          | .error .invalidOp => numFilterOnce ps s
          | .error .collision => .error .collision) = _
    have hrec := ih (fun q hq => hps q (List.mem_cons_of_mem _ hq))
    rcases hq : parseQifNumber s p.1 p.2 with e | v
    · cases e
      · exact absurd hq
          (parseQifNumber_not_collision s p.1 p.2 (hps p (List.mem_cons_self _ _)))
      · rw [hrec]
        simp [List.filter, isOkB, hq]
      · rw [hrec]
        simp [List.filter, isOkB, hq]
    · rw [hrec]
      simp [List.filter, isOkB, hq, Except.map]

/-- With collision-free candidates, the whole number elimination fold is
pure filtering. -/
theorem guessNum_fold (samples : List String) :
    ∀ init : List (Char × Option Char), (∀ p ∈ init, ¬ (p.2 = some p.1)) →
    samples.foldlM numFilterOnce init
      = .ok (samples.foldl
          (fun ps s => ps.filter (fun p => isOkB (parseQifNumber s p.1 p.2))) init) := by
  induction samples with
  | nil => intro init _; rfl
  | cons s ss ih =>
    intro init hinit
    simp only [List.foldlM_cons, List.foldl_cons]
    rw [numFilterOnce_eq s init hinit]
    change ss.foldlM numFilterOnce _ = _
    exact ih _ (fun q hq => hinit q (List.mem_of_mem_filter hq))

/-- A non-empty constant list dedups to the singleton of its value. -/
theorem dedup_eq_singleton {α : Type} [DecidableEq α] :
    ∀ (l : List α) (a : α), l ≠ [] → (∀ x ∈ l, x = a) → l.dedup = [a] := by
  intro l
  induction l with
  | nil => intro a h _; cases h rfl
  | cons x xs ih =>
    intro a _ hall
    have hx : x = a := hall x (List.mem_cons_self _ _)
    subst hx
    by_cases hxs : xs = []
    · subst hxs; simp
    · have hmem : x ∈ xs := by
        rcases xs with _ | ⟨y, ys⟩
        · cases hxs rfl
        · have : y = x := hall y (List.mem_cons_of_mem _ (List.mem_cons_self _ _))
          rw [← this]
          exact List.mem_cons_self _ _
      rw [List.dedup_cons_of_mem hmem]
      exact ih x hxs (fun z hz => hall z (List.mem_cons_of_mem _ hz))

/-- A list whose dedup is a singleton is constant. -/
theorem all_eq_of_dedup_singleton {α : Type} [DecidableEq α] (l : List α) (a : α)
    (h : l.dedup = [a]) : ∀ x ∈ l, x = a := by
  intro x hx
  have hm : x ∈ l.dedup := List.mem_dedup.mpr hx
  rw [h] at hm
  simpa using hm

/-- `guessNumberFormat` with at least two survivors reduces to the
dedup-based resolution of the survivor list. -/
theorem guessNum_of_survivors (samples : List String)
    (p q : Char × Option Char) (rest : List (Char × Option Char))
    (hS : survNum samples = p :: q :: rest) :
    guessNumberFormat samples =
      (match ((p :: q :: rest).map Prod.fst).dedup with
       | [dv] =>
         (match ((p :: q :: rest).filterMap Prod.snd).dedup with
          | [tv] => Except.ok (dv, some tv)
          | _ => Except.error GNumErr.ambiguous)
       | _ => Except.error GNumErr.ambiguous) := by
  unfold guessNumberFormat
  rw [guessNum_fold samples numCandidates (by decide)]
  unfold survNum at hS
  rw [hS]

/-- C3: when more than one separator candidate survives elimination,
`guessNumberFormat` returns a result exactly when all survivors share one
decimal separator and the non-empty thousands separators among them
collapse to one distinct value, returning that combination, and raises
the ambiguity error otherwise; the single sample `123.45` yields decimal
separator `.` with thousands separator `,`. -/
theorem claim_c3 :
    (∀ samples : List String, 1 < (survNum samples).length →
      ((∀ dv tv, (∀ p ∈ survNum samples, p.1 = dv) →
          ((survNum samples).filterMap Prod.snd).dedup = [tv] →
          guessNumberFormat samples = .ok (dv, some tv))
       ∧ ((¬ ∃ dv, ∀ p ∈ survNum samples, p.1 = dv) →
          guessNumberFormat samples = .error .ambiguous)
       ∧ (∀ dv, (∀ p ∈ survNum samples, p.1 = dv) →
          (¬ ∃ tv, ((survNum samples).filterMap Prod.snd).dedup = [tv]) →
          guessNumberFormat samples = .error .ambiguous)))
    ∧ guessNumberFormat ["123.45"] = .ok ('.', some ',') := by
  refine ⟨?_, by decide⟩
  intro samples hlen
  rcases hS : survNum samples with _ | ⟨p, _ | ⟨q, rest⟩⟩
  · rw [hS] at hlen; simp at hlen
  · rw [hS] at hlen; simp at hlen
  refine ⟨?_, ?_, ?_⟩
  · intro dv tv hall htv
    have hd : ((p :: q :: rest).map Prod.fst).dedup = [dv] :=
      dedup_eq_singleton _ _ (by simp) (by
        intro x hx
        rcases List.mem_map.mp hx with ⟨pp, hpp, hpx⟩
        rw [← hpx]
        exact hall pp hpp)
    rw [guessNum_of_survivors samples p q rest hS, hd, htv]
  · intro hno
    rw [guessNum_of_survivors samples p q rest hS]
    rcases hd : ((p :: q :: rest).map Prod.fst).dedup with _ | ⟨dv, _ | ⟨d2, drest⟩⟩
    · exact absurd ((List.dedup_eq_nil _).mp hd) (by simp)
    · exact absurd ⟨dv, fun pp hpp =>
        all_eq_of_dedup_singleton _ _ hd pp.1 (List.mem_map.mpr ⟨pp, hpp, rfl⟩)⟩ hno
    · rfl
  · intro dv hall hno
    have hd : ((p :: q :: rest).map Prod.fst).dedup = [dv] :=
      dedup_eq_singleton _ _ (by simp) (by
        intro x hx
        rcases List.mem_map.mp hx with ⟨pp, hpp, hpx⟩
        rw [← hpx]
        exact hall pp hpp)
    rw [guessNum_of_survivors samples p q rest hS, hd]
    rcases ht : ((p :: q :: rest).filterMap Prod.snd).dedup with _ | ⟨tv, _ | ⟨t2, trest⟩⟩
    · rfl
    · exact absurd ⟨tv, ht⟩ hno
    · rfl

/-- Witness for C3 at the sample list containing only `123.45`. -/
theorem claim_c3_witness :
    (1 < (survNum ["123.45"]).length
      ∧ (∀ p ∈ survNum ["123.45"], p.1 = '.')
      ∧ ((survNum ["123.45"]).filterMap Prod.snd).dedup = [','])
    ∧ guessNumberFormat ["123.45"] = .ok ('.', some ',') := by
  refine ⟨⟨by decide, by decide, by decide⟩, ?_⟩
  exact (claim_c3.1 ["123.45"] (by decide)).1 '.' ',' (by decide) (by decide)

/-- An `S` line appends a fresh split built from its value. -/
theorem stepTrans_S_str (fmt : DateFmt) (d : Char) (t : Option Char)
    (cur : Transaction) (v : String) :
    stepTrans fmt d t cur ("S" ++ v)
      = .ok { cur with splits := cur.splits ++ [mkSplitFromCat v] } := by
  obtain ⟨vl⟩ := v
  rfl

/-- A `$` line parses its value minus the final character into the amount
of the most recent split. -/
theorem stepTrans_dollar_str (fmt : DateFmt) (d : Char) (t : Option Char)
    (cur : Transaction) (v : String) :
    stepTrans fmt d t cur ("$" ++ v)
      = (match cur.splits.getLast? with
         | none => .error .indexError
         | some sp =>
           ((parseQifNumber (dropLastStr v) d t).mapError nErr).map
             (fun x => { cur with splits := cur.splits.dropLast ++ [{ sp with amount := some x }] })) := by
  obtain ⟨vl⟩ := v
  rfl

/-- C7 (amended): a transaction chunk with tag lines `S`,`$`,`S`,`$`
yields exactly two splits, in input order, each split's amount being the
number parsed from the value of the `$` line immediately following its
`S` line with that value's final character dropped (the decoder passes
`line[1:-1]`, tolerating a trailing carriage return). -/
theorem claim_c7 : ∀ (fmt : DateFmt) (d : Char) (t : Option Char)
    (c1 a1 c2 a2 v1 v2 : String),
    parseQifNumber (dropLastStr a1) d t = .ok v1 →
    parseQifNumber (dropLastStr a2) d t = .ok v2 →
    parseTransactionLines fmt d t ["S" ++ c1, "$" ++ a1, "S" ++ c2, "$" ++ a2]
      = .ok { splits := [{ mkSplitFromCat c1 with amount := some v1 },
                         { mkSplitFromCat c2 with amount := some v2 }] }
    ∧ ([{ mkSplitFromCat c1 with amount := some v1 },
        { mkSplitFromCat c2 with amount := some v2 }].map AmountSplit.amount
       = [some v1, some v2]) := by
  intro fmt d t c1 a1 c2 a2 v1 v2 h1 h2
  refine ⟨?_, rfl⟩
  have s1 : (["S" ++ c1, "$" ++ a1, "S" ++ c2, "$" ++ a2] : List String).foldlM
        (stepTrans fmt d t) ({} : Transaction)
      = (["$" ++ a1, "S" ++ c2, "$" ++ a2] : List String).foldlM (stepTrans fmt d t)
          { splits := [mkSplitFromCat c1] } := by
    rw [List.foldlM_cons, stepTrans_S_str]
    rfl
  have s2 : (["$" ++ a1, "S" ++ c2, "$" ++ a2] : List String).foldlM (stepTrans fmt d t)
        ({ splits := [mkSplitFromCat c1] } : Transaction)
      = (["S" ++ c2, "$" ++ a2] : List String).foldlM (stepTrans fmt d t)
          { splits := [{ mkSplitFromCat c1 with amount := some v1 }] } := by
    rw [List.foldlM_cons, stepTrans_dollar_str, h1]
    rfl
  have s3 : (["S" ++ c2, "$" ++ a2] : List String).foldlM (stepTrans fmt d t)
        ({ splits := [{ mkSplitFromCat c1 with amount := some v1 }] } : Transaction)
      = (["$" ++ a2] : List String).foldlM (stepTrans fmt d t)
          { splits := [{ mkSplitFromCat c1 with amount := some v1 }, mkSplitFromCat c2] } := by
    rw [List.foldlM_cons, stepTrans_S_str]
    rfl
  have s4 : (["$" ++ a2] : List String).foldlM (stepTrans fmt d t)
        ({ splits := [{ mkSplitFromCat c1 with amount := some v1 }, mkSplitFromCat c2] } : Transaction)
      = .ok { splits := [{ mkSplitFromCat c1 with amount := some v1 },
                         { mkSplitFromCat c2 with amount := some v2 }] } := by
    rw [List.foldlM_cons, stepTrans_dollar_str, h2]
    rfl
  unfold parseTransactionLines
  rw [s1, s2, s3, s4]

/-- Counterexample to C7 as stated: in the chunk `S`,`$123`,`S`,`$456`
the amounts decoded are 12.0 and 45.0, not the values 123 and 456 carried
on the `$` lines: the decoder drops the last character of each `$` value. -/
theorem claim_c7_cex :
    (parseTransactionLines .dmy '.' none ["S", "$123", "S", "$456"]).map
        (fun tr => tr.splits.map AmountSplit.amount)
      = .ok [some "12.0", some "45.0"]
    ∧ parseQifNumber "123" '.' none = .ok "123.0"
    ∧ parseQifNumber "456" '.' none = .ok "456.0"
    ∧ ([some ("12.0" : String), some "45.0"] ≠ [some "123.0", some "456.0"]) := by
  refine ⟨by decide, by decide, by decide, by decide⟩

/-- Witness for C7 at a concrete four-line chunk. -/
theorem claim_c7_witness :
    (parseQifNumber (dropLastStr "12.30") '.' none = .ok "12.3"
     ∧ parseQifNumber (dropLastStr "45.60") '.' none = .ok "45.6")
    ∧ parseTransactionLines .dmy '.' none ["S" ++ "x", "$" ++ "12.30", "S" ++ "y", "$" ++ "45.60"]
      = .ok { splits := [{ mkSplitFromCat "x" with amount := some "12.3" },
                         { mkSplitFromCat "y" with amount := some "45.6" }] } :=
  ⟨⟨by decide, by decide⟩,
   (claim_c7 .dmy '.' none "x" "12.30" "y" "45.60" "12.3" "45.6" (by decide) (by decide)).1⟩

/-- A bracketed value starts with the opening bracket. -/
theorem strPre_bracket (m : String) : strPre "[" ("[" ++ m ++ "]") = true := by
  obtain ⟨ml⟩ := m
  rfl

/-- Python `cat[1:-1]` on a bracketed value recovers the inner text. -/
theorem bracket_strip (m : String) :
    (⟨((("[" ++ m ++ "]") : String).data.drop 1).dropLast⟩ : String) = m := by
  obtain ⟨ml⟩ := m
  show (⟨(ml ++ [']']).dropLast⟩ : String) = ⟨ml⟩
  rw [List.dropLast_concat]

/-- A bracketed `S` value opens a split holding only the transfer account. -/
theorem mkSplitFromCat_bracket (m : String) :
    mkSplitFromCat ("[" ++ m ++ "]") = { to_account := some m } := by
  unfold mkSplitFromCat
  rw [if_pos (strPre_bracket m), bracket_strip]

/-- A plain `S` value opens a split holding only the category. -/
theorem mkSplitFromCat_plain (v : String) (h : strPre "[" v = false) :
    mkSplitFromCat v = { category := some v } := by
  unfold mkSplitFromCat
  rw [if_neg (by rw [h]; exact Bool.false_ne_true)]

/-- The `L` branch of the transaction decoder. -/
theorem stepTrans_L_str (fmt : DateFmt) (d : Char) (t : Option Char)
    (cur : Transaction) (v : String) :
    stepTrans fmt d t cur ("L" ++ v)
      = (if strPre "[" v then .ok { cur with to_account := some ⟨(v.data.drop 1).dropLast⟩ }
         else .ok { cur with category := some v }) := by
  obtain ⟨vl⟩ := v
  rfl

/-- The `L` branch of the memorized-transaction decoder. -/
theorem stepMem_L_str (d : Char) (t : Option Char)
    (cur : MemorizedTransaction) (v : String) :
    stepMem d t cur ("L" ++ v)
      = (if strPre "[" v then .ok { cur with to_account := some ⟨(v.data.drop 1).dropLast⟩ }
         else .ok { cur with category := some v }) := by
  obtain ⟨vl⟩ := v
  rfl

/-- An `S` line appends a fresh split (memorized decoder). -/
theorem stepMem_S_str (d : Char) (t : Option Char)
    (cur : MemorizedTransaction) (v : String) :
    stepMem d t cur ("S" ++ v)
      = .ok { cur with splits := cur.splits ++ [mkSplitFromCat v] } := by
  obtain ⟨vl⟩ := v
  rfl

/-- The `L` branch of the investment decoder strips unconditionally. -/
theorem stepInv_L_str (fmt : DateFmt) (d : Char) (t : Option Char)
    (cur : Investment) (v : String) :
    stepInv fmt d t cur ("L" ++ v)
      = .ok { cur with to_account := some ⟨(v.data.drop 1).dropLast⟩ } := by
  obtain ⟨vl⟩ := v
  rfl

/-- C8 (amended): for the `L` tag of transactions and memorized
transactions and the `S` tag of their splits, a value of the form
`[account]` sets the transfer-account field to the inner text and leaves
the category field untouched, while a value not starting with `[` sets
the category field to the plain value and leaves the transfer-account
field untouched (a fresh split has both unset).  The investment decoder
deviates: its `L` tag performs no bracket test and always stores the
value with its first and last characters dropped as the transfer
account; investments have no category field at all. -/
theorem claim_c8 : ∀ (fmt : DateFmt) (d : Char) (t : Option Char) (m v : String),
    (∀ cur : Transaction,
      stepTrans fmt d t cur ("L" ++ ("[" ++ m ++ "]")) = .ok { cur with to_account := some m }
      ∧ (strPre "[" v = false →
          stepTrans fmt d t cur ("L" ++ v) = .ok { cur with category := some v }))
    ∧ (∀ cur : MemorizedTransaction,
      stepMem d t cur ("L" ++ ("[" ++ m ++ "]")) = .ok { cur with to_account := some m }
      ∧ (strPre "[" v = false →
          stepMem d t cur ("L" ++ v) = .ok { cur with category := some v }))
    ∧ (∀ cur : Transaction,
      stepTrans fmt d t cur ("S" ++ ("[" ++ m ++ "]"))
        = .ok { cur with splits := cur.splits ++ [{ to_account := some m }] }
      ∧ (strPre "[" v = false →
          stepTrans fmt d t cur ("S" ++ v)
            = .ok { cur with splits := cur.splits ++ [{ category := some v }] }))
    ∧ (∀ cur : MemorizedTransaction,
      stepMem d t cur ("S" ++ ("[" ++ m ++ "]"))
        = .ok { cur with splits := cur.splits ++ [{ to_account := some m }] }
      ∧ (strPre "[" v = false →
          stepMem d t cur ("S" ++ v)
            = .ok { cur with splits := cur.splits ++ [{ category := some v }] }))
    ∧ (∀ cur : Investment,
      stepInv fmt d t cur ("L" ++ v)
        = .ok { cur with to_account := some ⟨(v.data.drop 1).dropLast⟩ }) := by
  intro fmt d t m v
  refine ⟨fun cur => ⟨?_, fun hv => ?_⟩, fun cur => ⟨?_, fun hv => ?_⟩,
    fun cur => ⟨?_, fun hv => ?_⟩, fun cur => ⟨?_, fun hv => ?_⟩,
    fun cur => stepInv_L_str fmt d t cur v⟩
  · rw [stepTrans_L_str, if_pos (strPre_bracket m), bracket_strip]
  · rw [stepTrans_L_str, if_neg (by rw [hv]; exact Bool.false_ne_true)]
  · rw [stepMem_L_str, if_pos (strPre_bracket m), bracket_strip]
  · rw [stepMem_L_str, if_neg (by rw [hv]; exact Bool.false_ne_true)]
  · rw [stepTrans_S_str, mkSplitFromCat_bracket]
  · rw [stepTrans_S_str, mkSplitFromCat_plain v hv]
  · rw [stepMem_S_str, mkSplitFromCat_bracket]
  · rw [stepMem_S_str, mkSplitFromCat_plain v hv]

/-- Counterexample to C8 as stated: the investment chunk line `LFood`
carries the plain value `Food`, so the claim prescribes category `Food`
and no transfer account, but the decoder stores `oo` (the value with
first and last characters dropped) as the transfer account and sets no
category. -/
theorem claim_c8_cex :
    (parseInvestmentLines .dmy '.' none ["LFood"]).map Investment.to_account
      = .ok (some "oo")
    ∧ some ("oo" : String) ≠ none
    ∧ ("oo" : String) ≠ "Food" := by
  refine ⟨by decide, by decide, by decide⟩

/-- Witness for C8 at a bracketed and a plain transaction `L` line. -/
theorem claim_c8_witness :
    strPre "[" "food" = false
    ∧ stepTrans .dmy '.' none {} ("L" ++ ("[" ++ "My Cc" ++ "]"))
        = .ok { ({} : Transaction) with to_account := some "My Cc" }
    ∧ stepTrans .dmy '.' none {} ("L" ++ "food")
        = .ok { ({} : Transaction) with category := some "food" } :=
  ⟨by decide,
   ((claim_c8 .dmy '.' none "My Cc" "food").1 {}).1,
   ((claim_c8 .dmy '.' none "My Cc" "food").1 {}).2 (by decide)⟩

/-- Appending to one account's transaction list preserves the account
count. -/
theorem updAcc_length (x : Option String × TransItem) :
    ∀ (l : List (Account × List (Option String × TransItem))) (i : Nat),
    (updAcc l i x).length = l.length := by
  intro l
  induction l with
  | nil => intro i; rfl
  | cons e es ih =>
    intro i
    cases i with
    | zero => rfl
    | succ n => simpa [updAcc] using ih n

/-- C9: one step of the chunk loop.  An account chunk sets the
last-seen-account cursor to the newly appended (most recent) account; any
other chunk leaves the cursor unchanged, so it is never cleared (category
and class chunks in particular change neither the top-level transaction
list nor any account).  A transaction-, investment- or memorized-kind
chunk is appended to the cursor's account and never to the top-level
container when the cursor is set, and to the top-level container when no
account has been seen. -/
theorem claim_c9 : ∀ (fmt : DateFmt) (d : Char) (t : Option Char)
    (st : PState) (ch : String) (st' : PState),
    parseStep fmt d t st ch = .ok st' →
    (ch = "" → st' = st)
    ∧ (ch ≠ "" →
      ((resolveKind st.lastType ((splitChar '\n' ch).headD "") = some .account →
        st'.lastAccount = some st.qif.accounts.length
        ∧ ∃ a, st'.qif.accounts = st.qif.accounts ++ [(a, [])]
            ∧ st'.qif.transactions = st.qif.transactions)
      ∧ (resolveKind st.lastType ((splitChar '\n' ch).headD "") ≠ some .account →
        st'.lastAccount = st.lastAccount
        ∧ st'.qif.accounts.length = st.qif.accounts.length)
      ∧ (∀ k, resolveKind st.lastType ((splitChar '\n' ch).headD "") = some k →
          (k = .transaction ∨ k = .investment ∨ k = .memorized) →
          (∀ i, st.lastAccount = some i →
            st'.qif.transactions = st.qif.transactions
            ∧ ∃ hd x, st'.qif.accounts = updAcc st.qif.accounts i (hd, x))
          ∧ (st.lastAccount = none →
            ∃ hd x, st'.qif.transactions = st.qif.transactions ++ [(hd, x)]
              ∧ st'.qif.accounts = st.qif.accounts))
      ∧ (∀ k, resolveKind st.lastType ((splitChar '\n' ch).headD "") = some k →
          (k = .category ∨ k = .classKind) →
          st'.qif.transactions = st.qif.transactions
          ∧ st'.qif.accounts = st.qif.accounts))) := by
  intro fmt d t st ch st' h
  constructor
  · intro hch
    unfold parseStep at h
    rw [if_pos hch] at h
    cases h
    rfl
  · intro hch
    unfold parseStep at h
    rw [if_neg hch] at h
    by_cases hhdr : (headerMatched ((splitChar '\n' ch).headD "") = false
        && strPre "!" ch) = true
    · rw [if_pos hhdr] at h
      exact Except.noConfusion h
    · rw [if_neg hhdr] at h
      rcases hk : resolveKind st.lastType ((splitChar '\n' ch).headD "") with _ | k
      · rw [hk] at h
        exact Except.noConfusion h
      · rw [hk] at h
        cases k with
        | category =>
          have h' := Except.ok.inj h
          subst h'
          refine ⟨fun hacc => absurd (hacc) (by simp),
            fun _ => ⟨rfl, rfl⟩, fun k2 hkk htk => ?_, fun k2 hkk _ => ⟨rfl, rfl⟩⟩
          have hkc := Option.some.inj hkk
          rcases htk with h1 | h1 | h1 <;> rw [← hkc] at h1 <;> cases h1
        | classKind =>
          have h' := Except.ok.inj h
          subst h'
          refine ⟨fun hacc => absurd (hacc) (by simp),
            fun _ => ⟨rfl, rfl⟩, fun k2 hkk htk => ?_, fun k2 hkk _ => ⟨rfl, rfl⟩⟩
          have hkc := Option.some.inj hkk
          rcases htk with h1 | h1 | h1 <;> rw [← hkc] at h1 <;> cases h1
        | account =>
          rcases ha : parseAccountLines fmt (splitChar '\n' ch) with e | a
          · rw [ha] at h
            exact Except.noConfusion h
          · rw [ha] at h
            have h' := Except.ok.inj h
            subst h'
            refine ⟨fun _ => ⟨rfl, a, (by simp [addAccount]), rfl⟩,
              fun hacc => absurd rfl hacc, fun k2 hkk htk => ?_, fun k2 hkk hck => ?_⟩
            · have hkc := Option.some.inj hkk
              rcases htk with h1 | h1 | h1 <;> rw [← hkc] at h1 <;> cases h1
            · have hkc := Option.some.inj hkk
              rcases hck with h1 | h1 <;> rw [← hkc] at h1 <;> cases h1
        | transaction =>
          rcases hx : parseTransactionLines fmt d t (splitChar '\n' ch) with e | x
          · rw [hx] at h
            exact Except.noConfusion h
          · rw [hx] at h
            have h' := Except.ok.inj h
            subst h'
            refine ⟨fun hacc => absurd (hacc) (by simp),
              fun _ => ?_, fun k2 hkk htk => ?_, fun k2 hkk hck => ?_⟩
            · rcases hla : st.lastAccount with _ | i <;>
                simp [placeTrans, hla, addTransTop, updAcc_length]
            · refine ⟨fun i hla => ?_, fun hla => ?_⟩
              · simp only [placeTrans, hla]
                exact ⟨trivial, resolveHeader st.header ((splitChar '\n' ch).headD ""),
                  .tr x, rfl⟩
              · simp only [placeTrans, hla]
                exact ⟨resolveHeader st.header ((splitChar '\n' ch).headD ""),
                  .tr x, rfl, rfl⟩
            · have hkc := Option.some.inj hkk
              rcases hck with h1 | h1 <;> rw [← hkc] at h1 <;> cases h1
        | investment =>
          rcases hx : parseInvestmentLines fmt d t (splitChar '\n' ch) with e | x
          · rw [hx] at h
            exact Except.noConfusion h
          · rw [hx] at h
            have h' := Except.ok.inj h
            subst h'
            refine ⟨fun hacc => absurd (hacc) (by simp),
              fun _ => ?_, fun k2 hkk htk => ?_, fun k2 hkk hck => ?_⟩
            · rcases hla : st.lastAccount with _ | i <;>
                simp [placeTrans, hla, addTransTop, updAcc_length]
            · refine ⟨fun i hla => ?_, fun hla => ?_⟩
              · simp only [placeTrans, hla]
                exact ⟨trivial, resolveHeader st.header ((splitChar '\n' ch).headD ""),
                  .inv x, rfl⟩
              · simp only [placeTrans, hla]
                exact ⟨resolveHeader st.header ((splitChar '\n' ch).headD ""),
                  .inv x, rfl, rfl⟩
            · have hkc := Option.some.inj hkk
              rcases hck with h1 | h1 <;> rw [← hkc] at h1 <;> cases h1
        | memorized =>
          rcases hx : parseMemorizedLines d t (splitChar '\n' ch) with e | x
          · rw [hx] at h
            exact Except.noConfusion h
          · rw [hx] at h
            have h' := Except.ok.inj h
            subst h'
            refine ⟨fun hacc => absurd (hacc) (by simp),
              fun _ => ?_, fun k2 hkk htk => ?_, fun k2 hkk hck => ?_⟩
            · rcases hla : st.lastAccount with _ | i <;>
                simp [placeTrans, hla, addTransTop, updAcc_length]
            · refine ⟨fun i hla => ?_, fun hla => ?_⟩
              · simp only [placeTrans, hla]
                exact ⟨trivial, resolveHeader st.header ((splitChar '\n' ch).headD ""),
                  .mem x, rfl⟩
              · simp only [placeTrans, hla]
                exact ⟨resolveHeader st.header ((splitChar '\n' ch).headD ""),
                  .mem x, rfl, rfl⟩
            · have hkc := Option.some.inj hkk
              rcases hck with h1 | h1 <;> rw [← hkc] at h1 <;> cases h1

/-- Witness for C9: a `Pshop` transaction chunk decoded in state `stWitA`
keeps the cursor, leaves top-level transactions alone and appends to the
cursor's account. -/
theorem claim_c9_witness :
    parseStep .dmy '.' none stWitA "Pshop" = .ok stWitB
    ∧ ("Pshop" : String) ≠ ""
    ∧ resolveKind stWitA.lastType ((splitChar '\n' "Pshop").headD "") = some .transaction
    ∧ stWitB.lastAccount = stWitA.lastAccount
    ∧ stWitB.qif.transactions = stWitA.qif.transactions
    ∧ ∃ hd x, stWitB.qif.accounts = updAcc stWitA.qif.accounts 0 (hd, x) := by
  have h := claim_c9 .dmy '.' none stWitA "Pshop" stWitB (by decide)
  have h2 := h.2 (by decide)
  refine ⟨by decide, by decide, by decide, (h2.2.1 (by decide)).1,
    ((h2.2.2.1 .transaction (by decide) (Or.inl rfl)).1 0 (by decide)).1,
    ((h2.2.2.1 .transaction (by decide) (Or.inl rfl)).1 0 (by decide)).2⟩

end Qifparse
